import Mathlib

/-!
Verification of the footystats-bot repository.

The repository contains two variants of the same polling bot:
* `Bot.py` (modelled in namespace `BotV1`): `check_matches` filters CSV rows by
  average goals, fuzzily matches them against live events, and notifies on
  0-0 matches past minute 50.
* `src/bot.py` (modelled in namespace `BotV2`): `process_once` iterates live
  events, extracts fields from heterogeneous JSON, and looks rows up in a
  pandas DataFrame.

Shared text utilities (the `normalize` function of `src/bot.py`, Python string
primitives) live in namespace `FootyBot`.

Modelling conventions:
* Python strings are Lean `String`/`List Char`.  The Unicode NFKD
  decomposition and combining-mark stripping performed at the start of
  `normalize` are the identity on ASCII text and are modelled as the
  identity; regex word characters (`\w`) are modelled as `[a-z0-9_]`, which
  agrees with Python on lowercased ASCII text.  Theorems about `normalize`
  therefore carry an explicit ASCII hypothesis where they quantify over
  arbitrary strings.
* Python floats parsed from decimal literals are modelled exactly by scaled
  integers (`Deci`), and float comparisons by exact rational comparisons;
  this agrees with Python for the magnitudes handled by the bot.
* `datetime` values are UTC epoch seconds (`Int`).  `Bot.py` compares the
  naive `strptime` result with `datetime.utcnow()`, so its naive datetimes
  are UTC epochs as well.
* Network effects are inputs/outputs: the CSV and the live events are
  arguments, attempted Telegram messages are returned in a result record,
  and the success of a send is an external `sendOk` predicate.
-/

namespace FootyBot

/-- Python `\s` (ASCII part): space, tab, newline, carriage return, vertical
tab, form feed. -/
def isPySpace (c : Char) : Bool :=
  c.toNat = 32 || c.toNat = 9 || c.toNat = 10 || c.toNat = 13 || c.toNat = 11 || c.toNat = 12

/-- Lowercase ASCII letter. -/
def isLowerAlpha (c : Char) : Bool := 97 ≤ c.toNat && c.toNat ≤ 122

/-- ASCII digit. -/
def isDigitCh (c : Char) : Bool := 48 ≤ c.toNat && c.toNat ≤ 57

/-- Lowercase ASCII alphanumeric: the characters kept by the final character
class of `normalize`. -/
def isAlnumL (c : Char) : Bool := isLowerAlpha c || isDigitCh c

/-- Regex word character (`\w`) as seen by the `\b` anchors of `normalize`
after lowercasing: `[a-z0-9_]`. -/
def wordCh (c : Char) : Bool := isAlnumL c || c.toNat = 95

/-- Characters kept by `re.sub(r"[^a-z0-9\s]", " ", s)`. -/
def keepCls (c : Char) : Bool := isAlnumL c || isPySpace c

/-- Python `str.lower` restricted to ASCII: maps `A`-`Z` to `a`-`z`. -/
def lowerCh (c : Char) : Char :=
  if 65 ≤ c.toNat ∧ c.toNat ≤ 90 then Char.ofNat (c.toNat + 32) else c

/-- Scanner for `re.sub(r"\([^)]*\)", " ", s)`.  In state `none` characters
pass through and `(` opens a group; in state `some buf` characters are
buffered until the first `)` closes the group, which is replaced by a single
space.  An unclosed `(` is emitted literally together with its buffer, as the
regex leaves it untouched. -/
def rpGo : Option (List Char) → List Char → List Char
  | none, [] => []
  | none, c :: rest => if c.toNat = 40 then rpGo (some []) rest else c :: rpGo none rest
  | some buf, [] => Char.ofNat 40 :: buf.reverse
  | some buf, c :: rest =>
      if c.toNat = 41 then Char.ofNat 32 :: rpGo none rest else rpGo (some (c :: buf)) rest

/-- Removal of bracketed qualifiers: `re.sub(r"\([^)]*\)", " ", s)`. -/
def removeParens (l : List Char) : List Char := rpGo none l

/-- The stopword alternatives of `re.sub(r"\b(u19|u20|u21|u23|w|women|reserves?)\b", " ", s)`:
the optional `s?` of `reserves?` yields both `reserve` and `reserves`. -/
def stopTokens : List (List Char) :=
  ["u19".data, "u20".data, "u21".data, "u23".data, "w".data, "women".data,
   "reserve".data, "reserves".data]

def isToken (r : List Char) : Bool := stopTokens.contains r

/-- Emit a completed maximal word-character run: a stopword run is replaced by
a single space (the regex replacement), any other run is kept. -/
def flushTok (buf : List Char) : List Char :=
  if isToken buf then [Char.ofNat 32] else buf

/-- Scanner for the stopword removal regex.  `buf` accumulates the current
maximal run of word characters; a `\b(tok)\b` match is exactly a maximal
word-character run equal to one of the alternatives. -/
def rsGo (buf : List Char) : List Char → List Char
  | [] => flushTok buf
  | c :: rest =>
      if wordCh c then rsGo (buf ++ [c]) rest
      else flushTok buf ++ c :: rsGo [] rest

/-- Stopword removal: `re.sub(r"\b(u19|u20|u21|u23|w|women|reserves?)\b", " ", s)`. -/
def removeStop (l : List Char) : List Char := rsGo [] l

/-- `re.sub(r"[^a-z0-9\s]", " ", s)`. -/
def punctToSpace (l : List Char) : List Char :=
  l.map fun c => if keepCls c then c else Char.ofNat 32

/-- Scanner for `re.sub(r"\s+", " ", s)`: a maximal run of whitespace is
replaced by one space.  The flag records whether the previous character was
whitespace. -/
def cwGo : Bool → List Char → List Char
  | _, [] => []
  | prevSpace, c :: rest =>
      if isPySpace c then
        if prevSpace then cwGo true rest else Char.ofNat 32 :: cwGo true rest
      else c :: cwGo false rest

/-- Whitespace collapsing: `re.sub(r"\s+", " ", s)`. -/
def collapseWs (l : List Char) : List Char := cwGo false l

/-- Python `str.strip()` (ASCII whitespace). -/
def pystrip (l : List Char) : List Char :=
  List.rdropWhile isPySpace (List.dropWhile isPySpace l)

/-- The `normalize` function of `src/bot.py` on character lists: NFKD plus
combining-mark removal (identity on ASCII), lowercasing, bracketed-qualifier
removal, stopword removal, punctuation-to-space, whitespace collapsing and
stripping, in source order. -/
def normalizeL (l : List Char) : List Char :=
  pystrip (collapseWs (punctToSpace (removeStop (removeParens (l.map lowerCh)))))

/-- `normalize` of `src/bot.py` on `String`. -/
def normalize (s : String) : String := String.mk (normalizeL s.data)

/-- Maximal word-character runs of a string, with accumulator; used to reason
about the stopword scanner. -/
def runsGo (buf : List Char) : List Char → List (List Char)
  | [] => if buf.isEmpty then [] else [buf]
  | c :: rest =>
      if wordCh c then runsGo (buf ++ [c]) rest
      else if buf.isEmpty then runsGo [] rest else buf :: runsGo [] rest

def runs (l : List Char) : List (List Char) := runsGo [] l

/-- Python `a in b` on lists of characters: prefix test helper. -/
def isPrefL : List Char → List Char → Bool
  | [], _ => true
  | _ :: _, [] => false
  | a :: as', b :: bs => a == b && isPrefL as' bs

/-- Python substring containment `needle in hay`. -/
def isSubL : List Char → List Char → Bool
  | n, [] => isPrefL n []
  | n, h :: t => isPrefL n (h :: t) || isSubL n t

/-- Python substring containment on `String`. -/
def isSub (needle hay : String) : Bool := isSubL needle.data hay.data

/-- Numeric value of a list of ASCII digits. -/
def digitsVal (l : List Char) : Nat := l.foldl (fun a c => a * 10 + (c.toNat - 48)) 0

def pow10N : Nat → Nat
  | 0 => 1
  | n + 1 => 10 * pow10N n

/-- Exact decimal number `num / 10 ^ scale`, the model of a Python float
parsed from a decimal literal. -/
structure Deci where
  num : Int
  scale : Nat
  deriving DecidableEq

def Deci.le (a b : Deci) : Bool :=
  decide (a.num * Int.ofNat (pow10N b.scale) ≤ b.num * Int.ofNat (pow10N a.scale))

def Deci.lt (a b : Deci) : Bool :=
  decide (a.num * Int.ofNat (pow10N b.scale) < b.num * Int.ofNat (pow10N a.scale))

/-- Python `float(s)` for the decimal forms occurring in the CSV: optional
surrounding whitespace, optional sign, digits with an optional fractional
part (at least one digit overall).  Exponent, `inf` and `nan` forms are not
modelled.  A non-matching string is a `ValueError`, modelled as `none`. -/
def pyFloat? (s : String) : Option Deci :=
  let t := pystrip s.data
  let sgn : Int := match t with
    | c :: _ => if c.toNat = 45 then -1 else 1
    | [] => 1
  let t2 := match t with
    | c :: r => if c.toNat = 45 || c.toNat = 43 then r else t
    | [] => t
  let ip := t2.takeWhile isDigitCh
  let rest := t2.dropWhile isDigitCh
  match rest with
  | [] =>
      if ip.isEmpty then none
      else some ⟨sgn * Int.ofNat (digitsVal ip), 0⟩
  | c :: fr =>
      if c.toNat = 46 && fr.all isDigitCh && !(ip.isEmpty && fr.isEmpty) then
        some ⟨sgn * Int.ofNat (digitsVal ip * pow10N fr.length + digitsVal fr), fr.length⟩
      else none

/-- Python `int(s)` for decimal strings: optional surrounding whitespace,
optional sign, at least one digit (digit-group underscores not modelled).
`none` models a `ValueError`. -/
def pyInt? (s : String) : Option Int :=
  let t := pystrip s.data
  let sgn : Int := match t with
    | c :: _ => if c.toNat = 45 then -1 else 1
    | [] => 1
  let t2 := match t with
    | c :: r => if c.toNat = 45 || c.toNat = 43 then r else t
    | [] => t
  if t2.isEmpty then none
  else if t2.all isDigitCh then some (sgn * Int.ofNat (digitsVal t2)) else none

/-- Python `f"{x:.2f}"` on an exact decimal: round to hundredths
(ties to even, as IEEE formatting does on exactly representable values) and
print with two fractional digits. -/
def fmt2 (d : Deci) : String :=
  let den := pow10N d.scale
  let numAbs := d.num.natAbs * 100
  let q := numAbs / den
  let r := numAbs % den
  let cents := if 2 * r < den then q else if den < 2 * r then q + 1
    else if q % 2 = 0 then q else q + 1
  let ip := cents / 100
  let fr := cents % 100
  let frs := if fr < 10 then "0" ++ toString fr else toString fr
  (if d.num < 0 ∧ cents ≠ 0 then "-" else "") ++ toString ip ++ "." ++ frs

/-- The apostrophe character, used in the notification texts. -/
def apos : String := String.singleton (Char.ofNat 39)

def isLeapYear (y : Int) : Bool := (Int.emod y 4 = 0 && Int.emod y 100 ≠ 0) || Int.emod y 400 = 0

def daysInMonth (y m : Int) : Int :=
  if m = 2 then (if isLeapYear y then 29 else 28)
  else if m = 4 || m = 6 || m = 9 || m = 11 then 30 else 31

/-- Days between a civil date and 1970-01-01 (proleptic Gregorian). -/
def daysFromCivil (y m d : Int) : Int :=
  let y2 := if m ≤ 2 then y - 1 else y
  let era := Int.fdiv y2 400
  let yoe := y2 - era * 400
  let mp := Int.emod (m + 9) 12
  let doy := Int.tdiv (153 * mp + 2) 5 + d - 1
  let doe := yoe * 365 + Int.tdiv yoe 4 - Int.tdiv yoe 100 + doy
  era * 146097 + doe - 719468

/-- UTC epoch seconds of a civil date-time. -/
def epochOfYmdHms (y mo d h mi s : Int) : Int :=
  86400 * daysFromCivil y mo d + 3600 * h + 60 * mi + s

end FootyBot

namespace BotV1

open FootyBot

/-- One CSV record of `Bot.py` (`csv.DictReader` row).  The cells consulted by
the code are `Home Team`, `Away Team` and `Average Goals` (kept raw, as the
code re-parses it). -/
structure CsvRow where
  homeTeam : String
  awayTeam : String
  averageGoals : String
  deriving DecidableEq

/-- One live event of `Bot.py` (flat Bet365 JSON record).  `league` is
optional because the code reads it with `live_match.get('league', 'N/A')`. -/
structure LiveMatch where
  id : String
  home : String
  away : String
  league : Option String
  SS : String
  TU : String
  deriving DecidableEq

/-- `AVG_GOALS_THRESHOLD = 2.50`. -/
def AVG_GOALS_THRESHOLD : Deci := ⟨250, 2⟩

/-- `CHECK_TIME_MINUTES = 50`. -/
def CHECK_TIME_MINUTES : Int := 50

/-- Python `s.lower().strip()` as used by `match_teams`. -/
def lowstrip (s : String) : String := String.mk (pystrip (s.data.map lowerCh))

/-- `parse_timestamp`: `datetime.strptime(tu_string, "%Y%m%d%H%M%S")`,
returning UTC epoch seconds; exactly 14 digits forming a valid civil
date-time are accepted, anything else raises and yields `None`. -/
def parse_timestamp (tu : String) : Option Int :=
  let l := tu.data
  if l.length = 14 && l.all isDigitCh then
    let y : Int := Int.ofNat (digitsVal (l.take 4))
    let mo : Int := Int.ofNat (digitsVal ((l.drop 4).take 2))
    let d : Int := Int.ofNat (digitsVal ((l.drop 6).take 2))
    let h : Int := Int.ofNat (digitsVal ((l.drop 8).take 2))
    let mi : Int := Int.ofNat (digitsVal ((l.drop 10).take 2))
    let s : Int := Int.ofNat (digitsVal ((l.drop 12).take 2))
    if 1 ≤ mo && mo ≤ 12 && 1 ≤ d && d ≤ daysInMonth y mo && h ≤ 23 && mi ≤ 59 && s ≤ 61 then
      some (epochOfYmdHms y mo d h mi s)
    else none
  else none

/-- `get_elapsed_minutes`: `int((now - start_time).total_seconds() / 60)`.
Python `int()` truncates the exact quotient toward zero. -/
def get_elapsed_minutes (now start : Int) : Int := Int.tdiv (now - start) 60

/-- `match_teams` of `Bot.py`: exact equality of lowercased, stripped names,
or containment of both names in the same direction. -/
def match_teams (csvm : CsvRow) (live : LiveMatch) : Bool :=
  let csvHome := lowstrip csvm.homeTeam
  let csvAway := lowstrip csvm.awayTeam
  let liveHome := lowstrip live.home
  let liveAway := lowstrip live.away
  (csvHome == liveHome && csvAway == liveAway) ||
  (isSub csvHome liveHome && isSub csvAway liveAway) ||
  (isSub liveHome csvHome && isSub liveAway csvAway)

/-- `filter_matches_by_avg`: keeps rows whose `Average Goals` cell parses to a
float `≥ 2.50`; a `ValueError`/`TypeError` skips the row. -/
def filter_matches_by_avg (rows : List CsvRow) : List CsvRow :=
  rows.filter fun m =>
    match pyFloat? m.averageGoals with
    | some v => Deci.le AVG_GOALS_THRESHOLD v
    | none => false

/-- The Telegram message built by `check_matches` for a qualifying match. -/
def buildMessage (live : LiveMatch) (csvm : CsvRow) (elapsed : Int) : String :=
  "🚨 <b>SEGNALE OVER 1.5!</b>\n\n⚽ <b>" ++ live.home ++ " vs " ++ live.away ++
  "</b>\n🏆 " ++ live.league.getD "N/A" ++
  "\n📊 AVG Goals: <b>" ++ csvm.averageGoals ++
  "</b>\n⏱️ <b>" ++ toString elapsed ++ apos ++ "</b> - Risultato: <b>" ++ live.SS ++
  "</b>\n✅ Controlla Bet365 Live!\n\n🎯 <b>Punta Over 1.5 FT</b>"

/-- Observable outcome of (part of) a `check_matches` cycle: the Telegram
messages attempted with the success reported by `send_telegram_message`, the
event ids recorded into `notified_matches`, and the final contents of that
set. -/
structure CycleOut where
  attempts : List (String × Bool)
  sentIds : List String
  notified : List String
  deriving DecidableEq

/-- Inner loop of `check_matches` (`for live_match in live_matches`) for one
CSV row: guards in source order — team match, already-notified id, timestamp
parse, elapsed/score condition — then send, recording the id only when the
send succeeded. -/
def innerLoop (now : Int) (sendOk : String → Bool) (csvm : CsvRow) :
    List LiveMatch → List String → CycleOut
  | [], notified => ⟨[], [], notified⟩
  | lv :: rest, notified =>
    if !match_teams csvm lv then innerLoop now sendOk csvm rest notified
    else if lv.id ∈ notified then innerLoop now sendOk csvm rest notified
    else match parse_timestamp lv.TU with
      | none => innerLoop now sendOk csvm rest notified
      | some start =>
        let elapsed := get_elapsed_minutes now start
        if decide (CHECK_TIME_MINUTES ≤ elapsed) && (lv.SS == "0-0") then
          let msg := buildMessage lv csvm elapsed
          if sendOk msg then
            let o := innerLoop now sendOk csvm rest (lv.id :: notified)
            ⟨(msg, true) :: o.attempts, lv.id :: o.sentIds, o.notified⟩
          else
            let o := innerLoop now sendOk csvm rest notified
            ⟨(msg, false) :: o.attempts, o.sentIds, o.notified⟩
        else innerLoop now sendOk csvm rest notified

/-- Outer loop of `check_matches` (`for csv_match in filtered_matches`). -/
def outerLoop (now : Int) (sendOk : String → Bool) :
    List CsvRow → List LiveMatch → List String → CycleOut
  | [], _, notified => ⟨[], [], notified⟩
  | c :: cs, lives, notified =>
    let o1 := innerLoop now sendOk c lives notified
    let o2 := outerLoop now sendOk cs lives o1.notified
    ⟨o1.attempts ++ o2.attempts, o1.sentIds ++ o2.sentIds, o2.notified⟩

/-- `check_matches` of `Bot.py` for one cycle, with the CSV rows and live
events as inputs (the two HTTP fetches) and the current UTC epoch as `now`.
The three early returns for empty inputs are kept. -/
def check_matches (now : Int) (csvMatches : List CsvRow) (liveMatches : List LiveMatch)
    (sendOk : String → Bool) (notified : List String) : CycleOut :=
  if csvMatches.isEmpty then ⟨[], [], notified⟩
  else
    let filtered := filter_matches_by_avg csvMatches
    if filtered.isEmpty then ⟨[], [], notified⟩
    else if liveMatches.isEmpty then ⟨[], [], notified⟩
    else outerLoop now sendOk filtered liveMatches notified

/-- Several consecutive cycles of `main`'s loop: `notified_matches` is a
process-lifetime global threaded through the cycles. -/
def run_cycles (sendOk : String → Bool) :
    List (Int × List CsvRow × List LiveMatch) → List String → CycleOut
  | [], notified => ⟨[], [], notified⟩
  | (now, cs, ls) :: rest, notified =>
    let o1 := check_matches now cs ls sendOk notified
    let o2 := run_cycles sendOk rest o1.notified
    ⟨o1.attempts ++ o2.attempts, o1.sentIds ++ o2.sentIds, o2.notified⟩

/-- Messages whose send succeeded. -/
def delivered (o : CycleOut) : List String := (o.attempts.filter fun p => p.2).map fun p => p.1

end BotV1

namespace BotV2

open FootyBot

/-- JSON-like values of a live-events response: `None`, integers, strings and
objects.  JSON numbers appearing in the bot's fields are integers (scores,
epochs, minutes); floats are not modelled. -/
inductive JVal where
  | null : JVal
  | i : Int → JVal
  | s : String → JVal
  | obj : List (String × JVal) → JVal

/-- One live event: a JSON object (`fetch_live_events` keeps only `dict`s). -/
def Event : Type := List (String × JVal)

def lookupField : List (String × JVal) → String → Option JVal
  | [], _ => none
  | (k, v) :: rest, key => if k = key then some v else lookupField rest key

/-- Python `d.get(key)` (default `None`) on a JSON value; non-dicts have no
keys. -/
def pyGet (v : JVal) (key : String) : JVal :=
  match v with
  | .obj fs => (lookupField fs key).getD .null
  | _ => .null

/-- `safe_get(d, *path, default=None)` of `src/bot.py`. -/
def safe_get (v : JVal) : List String → JVal
  | [] => v
  | k :: rest =>
    match v with
    | .obj fs =>
      match lookupField fs k with
      | some x => safe_get x rest
      | none => .null
    | _ => .null

/-- Python truthiness of a JSON value: `None`, `0`, `""` and `{}` are falsy. -/
def truthy : JVal → Bool
  | .null => false
  | .i n => !(n == 0)
  | .s str => !(str == "")
  | .obj fs => !fs.isEmpty

/-- Python `a or b`. -/
def pyOr (a b : JVal) : JVal := if truthy a then a else b

/-- Python `int(v)` with a fallback of `0` on any exception, as in the
`try/except` blocks of `extract_event_fields`. -/
def pyIntOrZero : JVal → Int
  | .i n => n
  | .s t => (pyInt? t).getD 0
  | _ => 0

/-- Python `str(v)`.  `str(None)` is `"None"`; the `repr` of a dict is
abbreviated (no claim depends on it). -/
def pyStrRepr : JVal → String
  | .null => "None"
  | .i n => toString n
  | .s t => t
  | .obj _ => "<dict>"

/-- Reads exactly `n` ASCII digits. -/
def readDigits (n : Nat) (l : List Char) : Option (Nat × List Char) :=
  let pre := l.take n
  if pre.length = n && pre.all isDigitCh then some (digitsVal pre, l.drop n) else none

def expectCh (code : Nat) : List Char → Option (List Char)
  | c :: rest => if c.toNat = code then some rest else none
  | [] => none

/-- `datetime.fromisoformat` (after the source's `.replace("Z", "+00:00")`)
followed by `.timestamp()`, for the common `YYYY-MM-DD[THH:MM[:SS]][±HH:MM]`
shapes, as an epoch.  Fractional seconds are not modelled; a naive result is
taken as UTC (Python would apply the host timezone, which the deployment sets
to UTC).  Unparseable strings raise, modelled as `none`. -/
def isoToEpoch? (t : String) : Option Int :=
  match readDigits 4 t.data with
  | none => none
  | some (y, r1) =>
    match expectCh 45 r1 with
    | none => none
    | some r2 =>
      match readDigits 2 r2 with
      | none => none
      | some (mo, r3) =>
        match expectCh 45 r3 with
        | none => none
        | some r4 =>
          match readDigits 2 r4 with
          | none => none
          | some (d, r5) =>
            if !(1 ≤ mo && mo ≤ 12 && 1 ≤ d &&
                 Int.ofNat d ≤ daysInMonth (Int.ofNat y) (Int.ofNat mo)) then none
            else
              let date := 86400 * daysFromCivil (Int.ofNat y) (Int.ofNat mo) (Int.ofNat d)
              match r5 with
              | [] => some date
              | c :: r6 =>
                if !(c.toNat = 84 || c.toNat = 32) then none
                else
                  match readDigits 2 r6 with
                  | none => none
                  | some (h, r7) =>
                    match expectCh 58 r7 with
                    | none => none
                    | some r8 =>
                      match readDigits 2 r8 with
                      | none => none
                      | some (mi, r9) =>
                        if !(h ≤ 23 && mi ≤ 59) then none
                        else
                          let withSec :=
                            match expectCh 58 r9 with
                            | none => some (0, r9)
                            | some r10 =>
                              match readDigits 2 r10 with
                              | none => none
                              | some (sec, r11) =>
                                if sec ≤ 59 then some (sec, r11) else none
                          match withSec with
                          | none => none
                          | some (sec, r12) =>
                            let base := date + 3600 * Int.ofNat h +
                              60 * Int.ofNat mi + Int.ofNat sec
                            match r12 with
                            | [] => some base
                            | c2 :: r13 =>
                              let sgn : Int := if c2.toNat = 43 then 1
                                else if c2.toNat = 45 then -1 else 0
                              if sgn = 0 then none
                              else
                                match readDigits 2 r13 with
                                | none => none
                                | some (oh, r14) =>
                                  match expectCh 58 r14 with
                                  | none => none
                                  | some r15 =>
                                    match readDigits 2 r15 with
                                    | none => none
                                    | some (om, r16) =>
                                      if r16.isEmpty && oh ≤ 23 && om ≤ 59 then
                                        some (base - sgn * (3600 * Int.ofNat oh + 60 * Int.ofNat om))
                                      else none

/-- Normalisation of the raw `kickoff` value to epoch seconds, from
`extract_event_fields`: numeric values below `10^12` are seconds, larger ones
milliseconds; digit strings likewise; other strings go through ISO-8601
parsing. -/
def koEpochOf : JVal → Option Int
  | .i n => some (if n < 1000000000000 then n else Int.fdiv n 1000)
  | .s t =>
    if !t.data.isEmpty && t.data.all isDigitCh then
      let val : Int := Int.ofNat (digitsVal t.data)
      some (if val < 1000000000000 then val else Int.fdiv val 1000)
    else isoToEpoch? (t.replace "Z" "+00:00")
  | _ => none

/-- The fields extracted from one live event by `extract_event_fields`. -/
structure Extracted where
  eid : String
  home : String
  away : String
  homeScore : Int
  awayScore : Int
  koEpoch : Option Int
  league : String
  deriving DecidableEq

/-- The `or`-chain selecting the raw home-score value (default `0`). -/
def hsRawOf (ev : Event) : JVal :=
  let evj := JVal.obj ev
  pyOr (pyOr (pyOr (pyOr (safe_get evj ["state", "homeScore"])
    (safe_get evj ["score", "home"])) (safe_get evj ["scores", "home"]))
    (pyGet evj "homeScore")) (.i 0)

/-- The `or`-chain selecting the raw away-score value (default `0`). -/
def asRawOf (ev : Event) : JVal :=
  let evj := JVal.obj ev
  pyOr (pyOr (pyOr (pyOr (safe_get evj ["state", "awayScore"])
    (safe_get evj ["score", "away"])) (safe_get evj ["scores", "away"]))
    (pyGet evj "awayScore")) (.i 0)

/-- `extract_event_fields` of `src/bot.py`: id, team names, league via
truthiness-based `or`-chains over the several possible JSON shapes; scores
converted with `int(...)` defaulting to `0`; kickoff normalised to epoch
seconds when recognisable. -/
def extract_event_fields (ev : Event) : Extracted :=
  let evj := JVal.obj ev
  let eid := pyStrRepr (pyOr (pyOr (pyOr (pyGet evj "id") (pyGet evj "event_id"))
    (pyGet evj "uid")) (.s ""))
  let league := pyOr (pyOr (pyOr (pyOr (safe_get evj ["league", "name"])
    (pyGet evj "league_name")) (safe_get evj ["tournament", "name"]))
    (pyGet evj "competition")) (.s "")
  let home := pyOr (pyOr (pyOr (pyOr (pyOr (safe_get evj ["home", "name"])
    (safe_get evj ["teams", "home", "name"])) (pyGet evj "homeTeam"))
    (pyGet evj "home_name")) (pyGet evj "home")) (.s "")
  let away := pyOr (pyOr (pyOr (pyOr (pyOr (safe_get evj ["away", "name"])
    (safe_get evj ["teams", "away", "name"])) (pyGet evj "awayTeam"))
    (pyGet evj "away_name")) (pyGet evj "away")) (.s "")
  let hs := pyIntOrZero (hsRawOf ev)
  let as2 := pyIntOrZero (asRawOf ev)
  let kickoff := pyOr (pyOr (pyOr (pyGet evj "kickoff") (pyGet evj "startTime"))
    (safe_get evj ["timer", "start"])) (pyOr (safe_get evj ["time", "kickoff"]) .null)
  ⟨eid, pyStrRepr home, pyStrRepr away, hs, as2, koEpochOf kickoff, pyStrRepr league⟩

/-- The explicit-minute resolution at the start of `get_elapsed_minutes`:
the `or`-chain over `time.minute`, `clock.minute`, `timer.minute`, `minute`;
if the selected value `is not None`, `int(...)` is attempted and a failure
falls through (`except: pass`). -/
def minuteFieldOf (ev : Event) : Option Int :=
  let evj := JVal.obj ev
  let cand := pyOr (pyOr (pyOr (safe_get evj ["time", "minute"])
    (safe_get evj ["clock", "minute"])) (safe_get evj ["timer", "minute"]))
    (pyGet evj "minute")
  match cand with
  | .null => none
  | .i n => some n
  | .s t => pyInt? t
  | .obj _ => none

/-- `get_elapsed_minutes` of `src/bot.py`: explicit minute field first, else
`(now - ko_epoch) // 60` when the kickoff epoch is truthy (nonzero) and
strictly past, else `None`. -/
def get_elapsed_minutes (ev : Event) (koEpoch : Option Int) (now : Int) : Option Int :=
  match minuteFieldOf ev with
  | some m => some m
  | none =>
    match koEpoch with
    | some ko =>
      if !(ko == 0) then
        (if ko < now then some (Int.fdiv (now - ko) 60) else none)
      else none
    | none => none

/-- One schedule row after `read_csv`'s renaming and `to_numeric` coercion:
`avg`/form cells that are missing or non-numeric are `NaN`, modelled as
`none`. -/
structure Row where
  league : String
  home : String
  away : String
  avg : Option Deci
  home_form : Option Deci
  away_form : Option Deci
  deriving DecidableEq

/-- The schedule DataFrame: its rows plus whether a `league` column exists
(`read_csv` only creates it when the CSV has a recognised league header). -/
structure DataFrame where
  hasLeagueCol : Bool
  rows : List Row
  deriving DecidableEq

/-- The `ValueError` raised by `bool(DataFrame)` in
`df[...] or df` (pandas: truth value of a DataFrame is ambiguous). -/
def dfAmbiguousMsg : String :=
  "The truth value of a DataFrame is ambiguous. Use a.empty, a.bool(), a.any() or a.all()."

def isErr {α : Type} : Except String α → Bool
  | .error _ => true
  | .ok _ => false

/-- `lookup_match_avg` of `src/bot.py`.  With a nonempty frame that has a
`league` column and a nonempty league string, the league soft-filter line
`sub = df[df["league"].map(...)] or df` evaluates `or` on a DataFrame and
raises; otherwise rows are matched by normalised team names in either order
and the first candidate's `avg`/form values are returned. -/
def lookup_match_avg (df : DataFrame) (league home away : String) :
    Except String (Option Deci × Option Deci × Option Deci) :=
  if df.rows.isEmpty then .ok (none, none, none)
  else if df.hasLeagueCol && !(league == "") then .error dfAmbiguousMsg
  else
    let nHome := normalize home
    let nAway := normalize away
    let rowsMatch := fun (r : Row) =>
      (normalize r.home == nHome && normalize r.away == nAway) ||
      (normalize r.home == nAway && normalize r.away == nHome)
    let cand := df.rows.filter rowsMatch
    let cand2 := if cand.isEmpty && df.hasLeagueCol then df.rows.filter rowsMatch else cand
    match cand2 with
    | [] => .ok (none, none, none)
    | r :: _ => .ok (r.avg, r.home_form, r.away_form)

/-- `AVG_GOALS_THRESHOLD` (env default `"2.5"`). -/
def AVG_GOALS_THRESHOLD : Deci := ⟨25, 1⟩

/-- `MIN_MINUTE` (env default `50`). -/
def MIN_MINUTE : Int := 50

/-- `MAX_MINUTE` (env default `56`). -/
def MAX_MINUTE : Int := 56

/-- `league_allowed` with the default empty `LEAGUE_WHITELIST` and
`LEAGUE_BLACKLIST`: both compiled regexes are `None`, so every league is
allowed. -/
def league_allowed (_league : String) : Bool := true

/-- `event_to_signal_text` of `src/bot.py`. -/
def event_to_signal_text (league home away : String) (minute : Int) (avg : Deci) : String :=
  String.intercalate "\n"
    ["🚨 <b>SEGNALE OVER 1.5!</b>",
     "⚽ <b>" ++ home ++ "</b> vs <b>" ++ away ++ "</b>",
     "🏆 " ++ league,
     "📊 AVG Goals: <b>" ++ fmt2 avg ++ "</b>",
     "🕒 " ++ toString minute ++ apos ++ " - Risultato: 0-0",
     "✅ Controlla Bet365 Live!",
     "",
     "🎯 <b>Punta Over 1.5 FT</b>"]

/-- The dedup key built at the duplicate-suppression step:
`f"{normalize(league)}|{normalize(home)}|{normalize(away)}"`. -/
def dedupKeyOf (league home away : String) : String :=
  normalize league ++ "|" ++ normalize home ++ "|" ++ normalize away

/-- Observable outcome of processing events in `process_once`: texts handed
to `send_telegram`, the dedup keys recorded at the moment of sending
(bookkeeping for stating deduplication properties), the final
`already_notified` set, and the skip/err/info log lines. -/
structure StepOut where
  sends : List String
  sentKeys : List String
  notified : List String
  logs : List String
  deriving DecidableEq

/-- The score-guard condition of `process_once`
(`if hs != 0 or as_ != 0: continue`). -/
def scoreSkip (x : Extracted) : Bool := !(x.homeScore == 0) || !(x.awayScore == 0)

/-- The body of `process_once`'s per-event loop, guards in source order:
incomplete fields, league allow-list, score 0-0, minute resolution and
window, CSV lookup (whose exception is caught by the per-event handler),
average-goals threshold, the (inactive, `TEAM_FORM_MIN_AVG = 0`) form filter,
duplicate suppression; then the key is added to `already_notified` and the
text is sent.  `send_telegram` returns nothing and swallows its own errors,
so nothing here depends on the send outcome. -/
def process_event (df : DataFrame) (ev : Event) (now : Int) (notified : List String) :
    StepOut :=
  let x := extract_event_fields ev
  if x.home == "" || x.away == "" || x.league == "" then
    ⟨[], [], notified, ["Skip evento incompleto"]⟩
  else if !league_allowed x.league then
    ⟨[], [], notified, ["Skip lega (blacklist/whitelist): " ++ x.league ++ " | teams=" ++
      x.home ++ "-" ++ x.away]⟩
  else if scoreSkip x then
    ⟨[], [], notified, ["Skip punteggio " ++ x.home ++ "-" ++ x.away ++ " " ++
      toString x.homeScore ++ "-" ++ toString x.awayScore]⟩
  else
    match get_elapsed_minutes ev x.koEpoch now with
    | none =>
      ⟨[], [], notified, ["Nessun minuto disponibile per " ++ x.home ++ " vs " ++ x.away ++
        " (ID " ++ x.eid ++ ")"]⟩
    | some minute =>
      if minute < MIN_MINUTE || MAX_MINUTE < minute then
        ⟨[], [], notified, ["Fuori finestra minuto " ++ toString minute ++ " per " ++
          x.home ++ "-" ++ x.away]⟩
      else
        match lookup_match_avg df x.league x.home x.away with
        | .error e => ⟨[], [], notified, ["Errore su evento: " ++ e]⟩
        | .ok (avgO, _hf, _af) =>
          match avgO with
          | none =>
            ⟨[], [], notified, ["AVG non trovato su CSV per " ++ x.home ++ " vs " ++
              x.away ++ " | " ++ x.league]⟩
          | some avg =>
            if Deci.lt avg AVG_GOALS_THRESHOLD then
              ⟨[], [], notified, ["AVG " ++ fmt2 avg ++ " < soglia " ++
                fmt2 AVG_GOALS_THRESHOLD ++ " per " ++ x.home ++ "-" ++ x.away]⟩
            else
              let key := dedupKeyOf x.league x.home x.away
              if key ∈ notified then ⟨[], [], notified, []⟩
              else
                let text := event_to_signal_text x.league x.home x.away minute avg
                ⟨[text], [key], key :: notified,
                  ["Segnale inviato: " ++ x.home ++ " vs " ++ x.away ++ " | " ++ x.league ++
                   " | " ++ toString minute ++ apos ++ " | AVG " ++ fmt2 avg]⟩

/-- `process_once` over the fetched live events, threading
`already_notified`. -/
def process_once (df : DataFrame) : List Event → Int → List String → StepOut
  | [], _, notified => ⟨[], [], notified, []⟩
  | e :: rest, now, notified =>
    let o1 := process_event df e now notified
    let o2 := process_once df rest now o1.notified
    ⟨o1.sends ++ o2.sends, o1.sentKeys ++ o2.sentKeys, o2.notified, o1.logs ++ o2.logs⟩

/-- Several consecutive cycles of `main`'s loop: each cycle re-reads the CSV
and the live events; `already_notified` is a process-lifetime global. -/
def run_cycles : List (DataFrame × List Event × Int) → List String → StepOut
  | [], notified => ⟨[], [], notified, []⟩
  | (df, evs, now) :: rest, notified =>
    let o1 := process_once df evs now notified
    let o2 := run_cycles rest o1.notified
    ⟨o1.sends ++ o2.sends, o1.sentKeys ++ o2.sentKeys, o2.notified, o1.logs ++ o2.logs⟩

/-- Messages actually delivered, given the external outcome of each
`send_telegram` post; the control flow of `process_once` never observes it. -/
def delivered (sendOk : String → Bool) (o : StepOut) : List String := o.sends.filter sendOk

end BotV2

namespace FootyBot

theorem char_eq_of_toNat {a b : Char} (h : a.toNat = b.toNat) : a = b :=
  Char.eq_of_val_eq (UInt32.eq_of_toBitVec_eq (BitVec.eq_of_toNat_eq h))

theorem toNat_ofNat_small {n : Nat} (h : n < 55296) : (Char.ofNat n).toNat = n := by
  unfold Char.ofNat
  split
  · simp [Char.ofNatAux, Char.toNat, UInt32.ofNat', UInt32.toNat, BitVec.toNat_ofNatLt]
  · omega

theorem mem_flushTok {c : Char} {buf : List Char} (h : c ∈ flushTok buf) :
    c ∈ buf ∨ c.toNat = 32 := by
  unfold flushTok at h
  split at h
  · right
    simp only [List.mem_singleton] at h
    subst h
    decide
  · exact Or.inl h

theorem mem_rpGo (l : List Char) : ∀ (st : Option (List Char)) (c : Char), c ∈ rpGo st l →
    c ∈ l ∨ c.toNat = 32 ∨ c.toNat = 40 ∨ (∃ buf, st = some buf ∧ c ∈ buf) := by
  induction l with
  | nil =>
    intro st c h
    match st with
    | none => simp [rpGo] at h
    | some buf =>
      simp only [rpGo, List.mem_cons, List.mem_reverse] at h
      rcases h with h | h
      · subst h
        right; right; left; decide
      · exact Or.inr (Or.inr (Or.inr ⟨buf, rfl, h⟩))
  | cons a rest ih =>
    intro st c h
    match st with
    | none =>
      simp only [rpGo] at h
      split at h
      · rcases ih _ _ h with h1 | h1 | h1 | ⟨buf, hb, hc⟩
        · exact Or.inl (List.mem_cons_of_mem _ h1)
        · exact Or.inr (Or.inl h1)
        · exact Or.inr (Or.inr (Or.inl h1))
        · cases Option.some.inj hb
          simp at hc
      · rcases List.mem_cons.mp h with h1 | h1
        · exact Or.inl (h1 ▸ List.mem_cons_self a rest)
        · rcases ih _ _ h1 with h2 | h2 | h2 | ⟨buf, hb, hc⟩
          · exact Or.inl (List.mem_cons_of_mem _ h2)
          · exact Or.inr (Or.inl h2)
          · exact Or.inr (Or.inr (Or.inl h2))
          · exact absurd hb (by simp)
    | some buf =>
      simp only [rpGo] at h
      split at h
      · rcases List.mem_cons.mp h with h1 | h1
        · subst h1
          right; left; decide
        · rcases ih _ _ h1 with h2 | h2 | h2 | ⟨buf2, hb, hc⟩
          · exact Or.inl (List.mem_cons_of_mem _ h2)
          · exact Or.inr (Or.inl h2)
          · exact Or.inr (Or.inr (Or.inl h2))
          · exact absurd hb (by simp)
      · rcases ih _ _ h with h2 | h2 | h2 | ⟨buf2, hb, hc⟩
        · exact Or.inl (List.mem_cons_of_mem _ h2)
        · exact Or.inr (Or.inl h2)
        · exact Or.inr (Or.inr (Or.inl h2))
        · cases Option.some.inj hb
          rcases List.mem_cons.mp hc with h3 | h3
          · exact Or.inl (h3 ▸ List.mem_cons_self a rest)
          · exact Or.inr (Or.inr (Or.inr ⟨buf, rfl, h3⟩))

theorem mem_rsGo (l : List Char) : ∀ (buf : List Char) (c : Char), c ∈ rsGo buf l →
    c ∈ buf ∨ c ∈ l ∨ c.toNat = 32 := by
  induction l with
  | nil =>
    intro buf c h
    rcases mem_flushTok h with h1 | h1
    · exact Or.inl h1
    · exact Or.inr (Or.inr h1)
  | cons a rest ih =>
    intro buf c h
    simp only [rsGo] at h
    split at h
    · rcases ih _ _ h with h1 | h1 | h1
      · rcases List.mem_append.mp h1 with h2 | h2
        · exact Or.inl h2
        · simp only [List.mem_singleton] at h2
          exact Or.inr (Or.inl (h2 ▸ List.mem_cons_self a rest))
      · exact Or.inr (Or.inl (List.mem_cons_of_mem _ h1))
      · exact Or.inr (Or.inr h1)
    · rcases List.mem_append.mp h with h1 | h1
      · rcases mem_flushTok h1 with h2 | h2
        · exact Or.inl h2
        · exact Or.inr (Or.inr h2)
      · rcases List.mem_cons.mp h1 with h2 | h2
        · exact Or.inr (Or.inl (h2 ▸ List.mem_cons_self a rest))
        · rcases ih _ _ h2 with h3 | h3 | h3
          · simp at h3
          · exact Or.inr (Or.inl (List.mem_cons_of_mem _ h3))
          · exact Or.inr (Or.inr h3)

theorem mem_punctToSpace {l : List Char} {c : Char} (h : c ∈ punctToSpace l) :
    (c ∈ l ∧ keepCls c = true) ∨ c.toNat = 32 := by
  rw [punctToSpace] at h
  rcases List.mem_map.mp h with ⟨a, ha, heq⟩
  by_cases hk : keepCls a = true
  · rw [if_pos hk] at heq
    exact Or.inl ⟨heq ▸ ha, heq ▸ hk⟩
  · rw [if_neg hk] at heq
    subst heq
    right; decide

theorem mem_cwGo (l : List Char) : ∀ (b : Bool) (c : Char), c ∈ cwGo b l →
    (c ∈ l ∧ isPySpace c = false) ∨ c.toNat = 32 := by
  induction l with
  | nil => intro b c h; simp [cwGo] at h
  | cons a rest ih =>
    intro b c h
    by_cases ha : isPySpace a = true
    · simp only [cwGo, ha, if_true] at h
      split at h
      · rcases ih _ _ h with ⟨h1, h2⟩ | h1
        · exact Or.inl ⟨List.mem_cons_of_mem _ h1, h2⟩
        · exact Or.inr h1
      · rcases List.mem_cons.mp h with h1 | h1
        · rw [h1]; right; decide
        · rcases ih _ _ h1 with ⟨h2, h3⟩ | h2
          · exact Or.inl ⟨List.mem_cons_of_mem _ h2, h3⟩
          · exact Or.inr h2
    · simp only [cwGo, ha, if_false] at h
      rcases List.mem_cons.mp h with h1 | h1
      · exact Or.inl ⟨h1 ▸ List.mem_cons_self a rest, by rw [h1]; simpa using ha⟩
      · rcases ih _ _ h1 with ⟨h2, h3⟩ | h2
        · exact Or.inl ⟨List.mem_cons_of_mem _ h2, h3⟩
        · exact Or.inr h2

theorem mem_pystrip {l : List Char} {c : Char} (h : c ∈ pystrip l) : c ∈ l :=
  (List.dropWhile_sublist _).subset ((List.rdropWhile_prefix _ _).sublist.subset h)

theorem normalizeL_chars {l : List Char} {c : Char} (h : c ∈ normalizeL l) :
    isAlnumL c = true ∨ c.toNat = 32 := by
  have h1 := mem_pystrip h
  rcases mem_cwGo _ _ _ h1 with ⟨h2, hns⟩ | h32
  · rcases mem_punctToSpace h2 with ⟨_, hk⟩ | h32
    · left
      simp only [keepCls, Bool.or_eq_true] at hk
      rcases hk with hk | hk
      · exact hk
      · rw [hk] at hns; cases hns
    · exact Or.inr h32
  · exact Or.inr h32

end FootyBot

namespace FootyBot

theorem lowerCh_eq_self {c : Char} (h : isAlnumL c = true ∨ c.toNat = 32) : lowerCh c = c := by
  unfold lowerCh
  rw [if_neg]
  simp only [isAlnumL, isLowerAlpha, isDigitCh, Bool.or_eq_true, Bool.and_eq_true,
    decide_eq_true_eq] at h
  omega

theorem map_lowerCh_id {l : List Char} (h : ∀ c ∈ l, isAlnumL c = true ∨ c.toNat = 32) :
    l.map lowerCh = l := by
  induction l with
  | nil => rfl
  | cons a rest ih =>
    simp only [List.map_cons]
    rw [lowerCh_eq_self (h a (List.mem_cons_self a rest)),
      ih fun c hc => h c (List.mem_cons_of_mem _ hc)]

theorem rpGo_none_id {l : List Char} (h : ∀ c ∈ l, c.toNat ≠ 40) : rpGo none l = l := by
  induction l with
  | nil => rfl
  | cons a rest ih =>
    simp only [rpGo]
    rw [if_neg (h a (List.mem_cons_self a rest)),
      ih fun c hc => h c (List.mem_cons_of_mem _ hc)]

theorem punctToSpace_id {l : List Char} (h : ∀ c ∈ l, keepCls c = true) :
    punctToSpace l = l := by
  induction l with
  | nil => rfl
  | cons a rest ih =>
    simp only [punctToSpace, List.map_cons] at *
    rw [if_pos (h a (List.mem_cons_self a rest)),
      ih fun c hc => h c (List.mem_cons_of_mem _ hc)]

theorem cwGo_eq_self : ∀ (l : List Char),
    (∀ c ∈ l, isPySpace c = true → c.toNat = 32) →
    List.Chain' (fun x y => isPySpace x = false ∨ isPySpace y = false) l →
    ∀ b : Bool, (b = true → ∀ x, l.head? = some x → isPySpace x = false) →
    cwGo b l = l := by
  intro l
  induction l with
  | nil => intro _ _ b _; rfl
  | cons a rest ih =>
    intro hsp hch b hb
    by_cases ha : isPySpace a = true
    · have hb0 : b = false := by
        cases b with
        | false => rfl
        | true => rw [hb rfl a rfl] at ha; cases ha
      subst hb0
      have hstep : cwGo false (a :: rest) = Char.ofNat 32 :: cwGo true rest := by
        simp [cwGo, ha]
      rw [hstep]
      have ha32 : Char.ofNat 32 = a :=
        char_eq_of_toNat (by rw [hsp a (List.mem_cons_self a rest) ha]; decide)
      rw [ha32]
      have hhead : ∀ x, rest.head? = some x → isPySpace x = false := by
        intro x hx
        have := (List.chain'_cons'.mp hch).1 x hx
        rcases this with h1 | h1
        · rw [h1] at ha; cases ha
        · exact h1
      rw [ih (fun c hc => hsp c (List.mem_cons_of_mem _ hc)) (List.chain'_cons'.mp hch).2
        true fun _ => hhead]
    · have hstep : cwGo b (a :: rest) = a :: cwGo false rest := by
        simp [cwGo, ha]
      rw [hstep, ih (fun c hc => hsp c (List.mem_cons_of_mem _ hc))
        (List.chain'_cons'.mp hch).2 false (by simp)]

theorem head_dropWhile_not {p : Char → Bool} :
    ∀ (l : List Char) (x : Char), (List.dropWhile p l).head? = some x → p x = false := by
  intro l
  induction l with
  | nil => intro x h; cases h
  | cons a rest ih =>
    intro x h
    rw [List.dropWhile_cons] at h
    split at h
    · exact ih x h
    · cases h
      simp_all

theorem pystrip_eq_self {l : List Char}
    (h1 : ∀ x, l.head? = some x → isPySpace x = false)
    (h2 : ∀ x, l.getLast? = some x → isPySpace x = false) : pystrip l = l := by
  have hd : List.dropWhile isPySpace l = l := by
    cases l with
    | nil => rfl
    | cons a rest => rw [List.dropWhile_cons, if_neg (by simp [h1 a rfl])]
  rw [pystrip, hd, List.rdropWhile]
  have hr : List.dropWhile isPySpace l.reverse = l.reverse := by
    cases hrev : l.reverse with
    | nil => rfl
    | cons a rest =>
      rw [List.dropWhile_cons, if_neg]
      have : l.getLast? = some a := by
        rw [← List.head?_reverse, hrev]; rfl
      simp [h2 a this]
  rw [hr, List.reverse_reverse]

theorem cwGo_true_head : ∀ (l : List Char) (x : Char),
    (cwGo true l).head? = some x → isPySpace x = false := by
  intro l
  induction l with
  | nil => intro x h; cases h
  | cons a rest ih =>
    intro x h
    by_cases ha : isPySpace a = true
    · have hstep : cwGo true (a :: rest) = cwGo true rest := by simp [cwGo, ha]
      rw [hstep] at h
      exact ih x h
    · have hstep : cwGo true (a :: rest) = a :: cwGo false rest := by simp [cwGo, ha]
      rw [hstep] at h
      cases h
      simpa using ha

theorem cwGo_chain : ∀ (l : List Char) (b : Bool),
    List.Chain' (fun x y => isPySpace x = false ∨ isPySpace y = false) (cwGo b l) := by
  intro l
  induction l with
  | nil => intro b; simp [cwGo]
  | cons a rest ih =>
    intro b
    by_cases ha : isPySpace a = true
    · cases b with
      | true =>
        have hstep : cwGo true (a :: rest) = cwGo true rest := by simp [cwGo, ha]
        rw [hstep]
        exact ih true
      | false =>
        have hstep : cwGo false (a :: rest) = Char.ofNat 32 :: cwGo true rest := by
          simp [cwGo, ha]
        rw [hstep]
        exact List.chain'_cons'.mpr
          ⟨fun y hy => Or.inr (cwGo_true_head rest y hy), ih true⟩
    · have hstep : cwGo b (a :: rest) = a :: cwGo false rest := by simp [cwGo, ha]
      rw [hstep]
      exact List.chain'_cons'.mpr
        ⟨fun y _ => Or.inl (by simpa using ha), ih false⟩

theorem chain_pystrip {R : Char → Char → Prop} {l : List Char} (h : List.Chain' R l) :
    List.Chain' R (pystrip l) :=
  h.infix ((List.rdropWhile_prefix _ _).isInfix.trans (List.dropWhile_suffix _).isInfix)

theorem pystrip_head {l : List Char} {x : Char} (h : (pystrip l).head? = some x) :
    isPySpace x = false := by
  rcases List.rdropWhile_prefix isPySpace (List.dropWhile isPySpace l) with ⟨t, ht⟩
  rcases hr : List.rdropWhile isPySpace (List.dropWhile isPySpace l) with _ | ⟨b, r2⟩
  · rw [pystrip, hr] at h; cases h
  · rw [pystrip, hr] at h
    cases h
    apply head_dropWhile_not l x
    rw [← ht, hr]
    rfl

theorem pystrip_last {l : List Char} {x : Char} (h : (pystrip l).getLast? = some x) :
    isPySpace x = false := by
  rw [pystrip, List.rdropWhile, List.getLast?_reverse] at h
  exact head_dropWhile_not _ x h

end FootyBot

namespace FootyBot

theorem isToken_nil : isToken [] = false := by decide

theorem token_ne_nil {buf : List Char} (h : isToken buf = true) : buf.isEmpty = false := by
  cases buf with
  | nil => rw [isToken_nil] at h; cases h
  | cons a t => rfl

theorem space_not_word {c : Char} (h : isPySpace c = true) : wordCh c = false := by
  simp only [isPySpace, Bool.or_eq_true, decide_eq_true_eq] at h
  cases hw : wordCh c
  · rfl
  · exfalso
    simp only [wordCh, isAlnumL, isLowerAlpha, isDigitCh, Bool.or_eq_true, Bool.and_eq_true,
      decide_eq_true_eq] at hw
    omega

theorem runsGo_all_nonword : ∀ (ys : List Char) (buf : List Char),
    (∀ c ∈ ys, wordCh c = false) →
    runsGo buf ys = if buf.isEmpty then [] else [buf] := by
  intro ys
  induction ys with
  | nil => intro buf _; rfl
  | cons a t ih =>
    intro buf h
    have ha : wordCh a = false := h a (List.mem_cons_self a t)
    have ht : ∀ c ∈ t, wordCh c = false := fun c hc => h c (List.mem_cons_of_mem _ hc)
    have hstep : runsGo buf (a :: t) =
        if buf.isEmpty then runsGo [] t else buf :: runsGo [] t := by
      simp [runsGo, ha]
    rw [hstep, ih [] ht]
    by_cases hb : buf.isEmpty
    · simp [hb]
    · simp [hb]

theorem runsGo_append_nonword : ∀ (xs ys : List Char) (buf : List Char),
    (∀ c ∈ ys, wordCh c = false) →
    runsGo buf (xs ++ ys) = runsGo buf xs := by
  intro xs
  induction xs with
  | nil =>
    intro ys buf h
    rw [List.nil_append, runsGo_all_nonword ys buf h]
    rfl
  | cons a xs ih =>
    intro ys buf h
    by_cases ha : wordCh a = true
    · have h1 : runsGo buf ((a :: xs) ++ ys) = runsGo (buf ++ [a]) (xs ++ ys) := by
        simp [runsGo, ha]
      have h2 : runsGo buf (a :: xs) = runsGo (buf ++ [a]) xs := by
        simp [runsGo, ha]
      rw [h1, h2, ih ys _ h]
    · have ha2 : wordCh a = false := by simpa using ha
      have h1 : runsGo buf ((a :: xs) ++ ys) =
          if buf.isEmpty then runsGo [] (xs ++ ys) else buf :: runsGo [] (xs ++ ys) := by
        simp [runsGo, ha2]
      have h2 : runsGo buf (a :: xs) =
          if buf.isEmpty then runsGo [] xs else buf :: runsGo [] xs := by
        simp [runsGo, ha2]
      rw [h1, h2, ih ys [] h]

theorem runsGo_append_sep {c : Char} (hc : wordCh c = false) :
    ∀ (xs : List Char) (buf ys : List Char),
    runsGo buf (xs ++ c :: ys) = runsGo buf xs ++ runsGo [] ys := by
  intro xs
  induction xs with
  | nil =>
    intro buf ys
    have h1 : runsGo buf ([] ++ c :: ys) =
        if buf.isEmpty then runsGo [] ys else buf :: runsGo [] ys := by
      simp [runsGo, hc]
    rw [h1]
    by_cases hb : buf.isEmpty
    · simp [runsGo, hb]
    · simp [runsGo, hb]
  | cons a xs ih =>
    intro buf ys
    by_cases ha : wordCh a = true
    · have h1 : runsGo buf ((a :: xs) ++ c :: ys) = runsGo (buf ++ [a]) (xs ++ c :: ys) := by
        simp [runsGo, ha]
      have h2 : runsGo buf (a :: xs) = runsGo (buf ++ [a]) xs := by
        simp [runsGo, ha]
      rw [h1, h2, ih]
    · have ha2 : wordCh a = false := by simpa using ha
      have h1 : runsGo buf ((a :: xs) ++ c :: ys) =
          if buf.isEmpty then runsGo [] (xs ++ c :: ys)
          else buf :: runsGo [] (xs ++ c :: ys) := by
        simp [runsGo, ha2]
      have h2 : runsGo buf (a :: xs) =
          if buf.isEmpty then runsGo [] xs else buf :: runsGo [] xs := by
        simp [runsGo, ha2]
      rw [h1, h2, ih]
      by_cases hb : buf.isEmpty
      · simp [hb]
      · simp [hb]

theorem runsGo_allword : ∀ (w : List Char) (buf : List Char),
    (∀ c ∈ w, wordCh c = true) →
    runsGo buf w = if (buf ++ w).isEmpty then [] else [buf ++ w] := by
  intro w
  induction w with
  | nil => intro buf _; simp [runsGo]
  | cons a t ih =>
    intro buf h
    have ha : wordCh a = true := h a (List.mem_cons_self a t)
    have hstep : runsGo buf (a :: t) = runsGo (buf ++ [a]) t := by
      simp [runsGo, ha]
    rw [hstep, ih _ fun c hc => h c (List.mem_cons_of_mem _ hc)]
    have happ : buf ++ [a] ++ t = buf ++ a :: t := by simp
    rw [happ]

end FootyBot

namespace FootyBot

theorem wordCh_sp32 : wordCh (Char.ofNat 32) = false := by decide

theorem rsGo_runs : ∀ (l buf : List Char), (∀ c ∈ buf, wordCh c = true) →
    runsGo [] (rsGo buf l) = (runsGo buf l).filter (fun r => !isToken r) := by
  intro l
  induction l with
  | nil =>
    intro buf hbuf
    show runsGo [] (flushTok buf) = _
    by_cases ht : isToken buf = true
    · have hne := token_ne_nil ht
      simp only [flushTok, ht, if_true]
      have h1 : runsGo [] [Char.ofNat 32] = [] := by decide
      rw [h1]
      have h2 : runsGo buf [] = [buf] := by
        show (if buf.isEmpty then [] else [buf]) = [buf]
        rw [hne]
        rfl
      rw [h2, List.filter_cons]
      simp [ht]
    · have ht2 : isToken buf = false := by simpa using ht
      simp only [flushTok, ht2, Bool.false_eq_true, if_false]
      rw [runsGo_allword buf [] hbuf]
      show (if buf.isEmpty then ([] : List (List Char)) else [buf]) =
        (if buf.isEmpty then ([] : List (List Char)) else [buf]).filter _
      by_cases hb : buf.isEmpty
      · simp [hb]
      · simp only [hb, Bool.false_eq_true, if_false, List.filter_cons, ht2]
        simp
  | cons a rest ih =>
    intro buf hbuf
    by_cases ha : wordCh a = true
    · have h1 : rsGo buf (a :: rest) = rsGo (buf ++ [a]) rest := by simp [rsGo, ha]
      have h2 : runsGo buf (a :: rest) = runsGo (buf ++ [a]) rest := by simp [runsGo, ha]
      rw [h1, h2]
      apply ih
      intro c hc
      rcases List.mem_append.mp hc with h3 | h3
      · exact hbuf c h3
      · simp only [List.mem_singleton] at h3
        exact h3 ▸ ha
    · have ha2 : wordCh a = false := by simpa using ha
      have h1 : rsGo buf (a :: rest) = flushTok buf ++ a :: rsGo [] rest := by
        simp [rsGo, ha2]
      rw [h1]
      by_cases ht : isToken buf = true
      · have hne := token_ne_nil ht
        simp only [flushTok, ht, if_true]
        have h2 : runsGo [] ((Char.ofNat 32 :: []) ++ a :: rsGo [] rest) =
            runsGo [] (rsGo [] rest) := by
          show runsGo [] (Char.ofNat 32 :: a :: rsGo [] rest) = _
          have e1 : runsGo [] (Char.ofNat 32 :: a :: rsGo [] rest) =
              runsGo [] (a :: rsGo [] rest) := by
            simp [runsGo, wordCh_sp32]
          have e2 : runsGo [] (a :: rsGo [] rest) = runsGo [] (rsGo [] rest) := by
            simp [runsGo, ha2]
          rw [e1, e2]
        rw [h2, ih [] (by simp)]
        have h3 : runsGo buf (a :: rest) = buf :: runsGo [] rest := by
          simp [runsGo, ha2, hne]
        rw [h3, List.filter_cons]
        simp [ht]
      · have ht2 : isToken buf = false := by simpa using ht
        simp only [flushTok, ht2, Bool.false_eq_true, if_false]
        rcases hbe : buf.isEmpty with _ | _
        · have hbne : buf ≠ [] := by
            intro hb0
            rw [hb0] at hbe
            cases hbe
          rcases List.exists_cons_of_ne_nil hbne with ⟨b, bs, hb⟩
          rw [runsGo_append_sep ha2 buf [] (rsGo [] rest)]
          rw [runsGo_allword buf [] hbuf]
          have h4 : ([] ++ buf).isEmpty = false := by simpa using hbe
          rw [h4]
          simp only [Bool.false_eq_true, if_false, List.nil_append]
          rw [ih [] (by simp)]
          have h5 : runsGo buf (a :: rest) = buf :: runsGo [] rest := by
            simp [runsGo, ha2, hbe]
          rw [h5, List.filter_cons]
          simp [ht2]
        · have hb0 : buf = [] := by
            cases buf with
            | nil => rfl
            | cons x xs => cases hbe
          subst hb0
          simp only [List.nil_append]
          have e2 : runsGo ([] : List Char) (a :: rsGo [] rest) =
              runsGo [] (rsGo [] rest) := by
            simp [runsGo, ha2]
          rw [e2, ih [] (by simp)]
          have h5 : runsGo ([] : List Char) (a :: rest) = runsGo [] rest := by
            simp [runsGo, ha2]
          rw [h5]

theorem rsGo_id : ∀ (l buf : List Char), (∀ c ∈ buf, wordCh c = true) →
    (∀ r ∈ runsGo buf l, isToken r = false) → rsGo buf l = buf ++ l := by
  intro l
  induction l with
  | nil =>
    intro buf hbuf h
    show flushTok buf = buf ++ []
    rw [List.append_nil]
    by_cases hb : buf.isEmpty
    · have hb0 : buf = [] := by
        cases buf with
        | nil => rfl
        | cons x xs => cases hb
      subst hb0
      rfl
    · have hbuf_mem : buf ∈ runsGo buf [] := by
        show buf ∈ (if buf.isEmpty then [] else [buf])
        simp [hb]
      rw [flushTok, h buf hbuf_mem]
      rfl
  | cons a rest ih =>
    intro buf hbuf h
    by_cases ha : wordCh a = true
    · have h1 : rsGo buf (a :: rest) = rsGo (buf ++ [a]) rest := by simp [rsGo, ha]
      have h2 : runsGo buf (a :: rest) = runsGo (buf ++ [a]) rest := by simp [runsGo, ha]
      rw [h1, ih (buf ++ [a])
        (by
          intro c hc
          rcases List.mem_append.mp hc with h3 | h3
          · exact hbuf c h3
          · simp only [List.mem_singleton] at h3
            exact h3 ▸ ha)
        (by rw [← h2]; exact h)]
      simp
    · have ha2 : wordCh a = false := by simpa using ha
      have h1 : rsGo buf (a :: rest) = flushTok buf ++ a :: rsGo [] rest := by
        simp [rsGo, ha2]
      rw [h1]
      by_cases hb : buf.isEmpty
      · have hb0 : buf = [] := by
          cases buf with
          | nil => rfl
          | cons x xs => cases hb
        subst hb0
        have h2 : runsGo ([] : List Char) (a :: rest) = runsGo [] rest := by
          simp [runsGo, ha2]
        rw [show flushTok [] = [] from rfl, ih [] (by simp) (by rw [← h2]; exact h)]
        rfl
      · have hbe : buf.isEmpty = false := by simpa using hb
        have h2 : runsGo buf (a :: rest) = buf :: runsGo [] rest := by
          simp [runsGo, ha2, hbe]
        have htok : isToken buf = false := by
          apply h
          rw [h2]
          exact List.mem_cons_self _ _
        rw [flushTok, htok]
        simp only [Bool.false_eq_true, if_false]
        rw [ih [] (by simp) (by
          intro r hr
          apply h
          rw [h2]
          exact List.mem_cons_of_mem _ hr)]
        rfl

theorem removeStop_id {l : List Char} (h : ∀ r ∈ runs l, isToken r = false) :
    removeStop l = l := by
  rw [removeStop, rsGo_id l [] (by simp) h]
  rfl

end FootyBot

namespace FootyBot

theorem runs_punct {l : List Char} (h : ∀ c ∈ l, c.toNat ≠ 95) :
    ∀ buf, runsGo buf (punctToSpace l) = runsGo buf l := by
  induction l with
  | nil => intro buf; rfl
  | cons a t ih =>
    intro buf
    have hpt : punctToSpace (a :: t) =
        (if keepCls a then a else Char.ofNat 32) :: punctToSpace t := rfl
    have ht : ∀ c ∈ t, c.toNat ≠ 95 := fun c hc => h c (List.mem_cons_of_mem _ hc)
    by_cases hw : wordCh a = true
    · have hal : isAlnumL a = true := by
        simp only [wordCh, Bool.or_eq_true, decide_eq_true_eq] at hw
        rcases hw with hw | hw
        · exact hw
        · exact absurd hw (h a (List.mem_cons_self a t))
      have hk : keepCls a = true := by simp [keepCls, hal]
      rw [hpt, hk]
      simp only [if_true]
      have e1 : runsGo buf (a :: punctToSpace t) = runsGo (buf ++ [a]) (punctToSpace t) := by
        simp [runsGo, hw]
      have e2 : runsGo buf (a :: t) = runsGo (buf ++ [a]) t := by
        simp [runsGo, hw]
      rw [e1, e2, ih ht]
    · have hw2 : wordCh a = false := by simpa using hw
      have hfa : wordCh (if keepCls a then a else Char.ofNat 32) = false := by
        by_cases hk : keepCls a = true
        · simpa [hk] using hw2
        · simp only [hk, Bool.false_eq_true, if_false]
          · simpa [hk] using wordCh_sp32
      rw [hpt]
      have e1 : runsGo buf ((if keepCls a then a else Char.ofNat 32) :: punctToSpace t) =
          if buf.isEmpty then runsGo [] (punctToSpace t)
          else buf :: runsGo [] (punctToSpace t) := by
        simp [runsGo, hfa]
      have e2 : runsGo buf (a :: t) =
          if buf.isEmpty then runsGo [] t else buf :: runsGo [] t := by
        simp [runsGo, hw2]
      rw [e1, e2, ih ht]

theorem runs_cw : ∀ (l : List Char) (buf : List Char) (b : Bool), (b = true → buf = []) →
    runsGo buf (cwGo b l) = runsGo buf l := by
  intro l
  induction l with
  | nil => intro buf b _; rfl
  | cons a t ih =>
    intro buf b hb
    by_cases ha : isPySpace a = true
    · have haw : wordCh a = false := space_not_word ha
      cases b with
      | true =>
        have hb0 : buf = [] := hb rfl
        subst hb0
        have e1 : cwGo true (a :: t) = cwGo true t := by simp [cwGo, ha]
        have e2 : runsGo ([] : List Char) (a :: t) = runsGo [] t := by
          simp [runsGo, haw]
        rw [e1, e2, ih [] true fun _ => rfl]
      | false =>
        have e1 : cwGo false (a :: t) = Char.ofNat 32 :: cwGo true t := by
          simp [cwGo, ha]
        rw [e1]
        have e2 : runsGo buf (Char.ofNat 32 :: cwGo true t) =
            if buf.isEmpty then runsGo [] (cwGo true t)
            else buf :: runsGo [] (cwGo true t) := by
          simp [runsGo, wordCh_sp32]
        have e3 : runsGo buf (a :: t) =
            if buf.isEmpty then runsGo [] t else buf :: runsGo [] t := by
          simp [runsGo, haw]
        rw [e2, e3, ih [] true fun _ => rfl]
    · have e1 : cwGo b (a :: t) = a :: cwGo false t := by simp [cwGo, ha]
      rw [e1]
      by_cases hw : wordCh a = true
      · have e2 : runsGo buf (a :: cwGo false t) = runsGo (buf ++ [a]) (cwGo false t) := by
          simp [runsGo, hw]
        have e3 : runsGo buf (a :: t) = runsGo (buf ++ [a]) t := by
          simp [runsGo, hw]
        rw [e2, e3, ih (buf ++ [a]) false (by simp)]
      · have hw2 : wordCh a = false := by simpa using hw
        have e2 : runsGo buf (a :: cwGo false t) =
            if buf.isEmpty then runsGo [] (cwGo false t)
            else buf :: runsGo [] (cwGo false t) := by
          simp [runsGo, hw2]
        have e3 : runsGo buf (a :: t) =
            if buf.isEmpty then runsGo [] t else buf :: runsGo [] t := by
          simp [runsGo, hw2]
        rw [e2, e3, ih [] false (by simp)]

theorem runs_dropWhile_space : ∀ (l : List Char),
    runsGo [] (List.dropWhile isPySpace l) = runsGo [] l := by
  intro l
  induction l with
  | nil => rfl
  | cons a t ih =>
    by_cases ha : isPySpace a = true
    · rw [List.dropWhile_cons, if_pos ha, ih]
      have e : runsGo ([] : List Char) (a :: t) = runsGo [] t := by
        simp [runsGo, space_not_word ha]
      rw [e]
    · rw [List.dropWhile_cons, if_neg ha]

theorem rdrop_append_rtake (p : Char → Bool) (l : List Char) :
    List.rdropWhile p l ++ List.rtakeWhile p l = l := by
  rw [List.rdropWhile, List.rtakeWhile, ← List.reverse_append,
    List.takeWhile_append_dropWhile]
  exact List.reverse_reverse l

theorem runs_pystrip (l : List Char) : runs (pystrip l) = runs l := by
  rw [runs, runs, pystrip]
  have h1 : runsGo [] (List.dropWhile isPySpace l) =
      runsGo [] (List.rdropWhile isPySpace (List.dropWhile isPySpace l) ++
        List.rtakeWhile isPySpace (List.dropWhile isPySpace l)) := by
    rw [rdrop_append_rtake]
  have h2 : runsGo [] (List.rdropWhile isPySpace (List.dropWhile isPySpace l) ++
      List.rtakeWhile isPySpace (List.dropWhile isPySpace l)) =
      runsGo [] (List.rdropWhile isPySpace (List.dropWhile isPySpace l)) :=
    runsGo_append_nonword _ _ _ fun c hc =>
      space_not_word (List.mem_rtakeWhile_imp hc)
  rw [← runs_dropWhile_space l, h1, h2]

theorem lowerCh_toNat_ne95 {a : Char} (h : a.toNat ≠ 95) : (lowerCh a).toNat ≠ 95 := by
  unfold lowerCh
  split
  · rw [toNat_ofNat_small (by omega)]
    omega
  · exact h

theorem no95_propagate {l : List Char} (h : ∀ c ∈ l, c.toNat ≠ 95) :
    ∀ c ∈ removeStop (removeParens (l.map lowerCh)), c.toNat ≠ 95 := by
  intro c hc
  rcases mem_rsGo _ _ _ hc with h1 | h1 | h1
  · simp at h1
  · rcases mem_rpGo _ _ _ h1 with h2 | h2 | h2 | ⟨buf, hb, _⟩
    · rcases List.mem_map.mp h2 with ⟨a, ha, heq⟩
      exact heq ▸ lowerCh_toNat_ne95 (h a ha)
    · omega
    · omega
    · cases hb
  · omega

end FootyBot

namespace FootyBot

theorem normalizeL_runs_token_free (l : List Char) (h95 : ∀ c ∈ l, c.toNat ≠ 95) :
    ∀ r ∈ runs (normalizeL l), isToken r = false := by
  have e : runs (normalizeL l) =
      (runsGo [] (removeParens (l.map lowerCh))).filter (fun r => !isToken r) := by
    show runs (pystrip (collapseWs (punctToSpace
      (removeStop (removeParens (l.map lowerCh)))))) = _
    rw [runs_pystrip, runs, collapseWs,
      runs_cw _ [] false (by simp),
      runs_punct (no95_propagate h95) [],
      removeStop, rsGo_runs _ [] (by simp)]
  intro r hr
  rw [e] at hr
  have := (List.mem_filter.mp hr).2
  simpa using this

theorem normalizeL_idem {l : List Char} (h95 : ∀ c ∈ l, c.toNat ≠ 95) :
    normalizeL (normalizeL l) = normalizeL l := by
  have hchars : ∀ c ∈ normalizeL l, isAlnumL c = true ∨ c.toNat = 32 :=
    fun c hc => normalizeL_chars hc
  have h1 : (normalizeL l).map lowerCh = normalizeL l := map_lowerCh_id hchars
  have h2 : removeParens (normalizeL l) = normalizeL l := by
    rw [removeParens]
    apply rpGo_none_id
    intro c hc
    rcases hchars c hc with h | h
    · simp only [isAlnumL, isLowerAlpha, isDigitCh, Bool.or_eq_true, Bool.and_eq_true,
        decide_eq_true_eq] at h
      omega
    · omega
  have h3 : removeStop (normalizeL l) = normalizeL l :=
    removeStop_id (normalizeL_runs_token_free l h95)
  have h4 : punctToSpace (normalizeL l) = normalizeL l := by
    apply punctToSpace_id
    intro c hc
    rcases hchars c hc with h | h
    · simp [keepCls, h]
    · simp [keepCls, isPySpace, h]
  have h5 : collapseWs (normalizeL l) = normalizeL l := by
    rw [collapseWs]
    apply cwGo_eq_self _ ?hsp ?hch false (by simp)
    case hsp =>
      intro c hc hspace
      rcases hchars c hc with h | h
      · exfalso
        simp only [isAlnumL, isLowerAlpha, isDigitCh, Bool.or_eq_true, Bool.and_eq_true,
          decide_eq_true_eq] at h
        simp only [isPySpace, Bool.or_eq_true, decide_eq_true_eq] at hspace
        omega
      · exact h
    case hch =>
      exact chain_pystrip (cwGo_chain _ false)
  have h6 : pystrip (normalizeL l) = normalizeL l := by
    apply pystrip_eq_self
    · intro x hx
      exact pystrip_head (l := collapseWs (punctToSpace
        (removeStop (removeParens (l.map lowerCh))))) hx
    · intro x hx
      exact pystrip_last (l := collapseWs (punctToSpace
        (removeStop (removeParens (l.map lowerCh))))) hx
  calc normalizeL (normalizeL l)
      = pystrip (collapseWs (punctToSpace (removeStop (removeParens
          ((normalizeL l).map lowerCh))))) := rfl
    _ = normalizeL l := by rw [h1, h2, h3, h4, h5, h6]

end FootyBot

namespace BotV2

open FootyBot

/-- Every branch of `process_event` either leaves the state unchanged and
sends nothing, or sends exactly one signal whose dedup key was fresh and is
recorded. -/
theorem process_event_cases (df : DataFrame) (ev : Event) (now : Int) (S : List String) :
    (∃ logs, process_event df ev now S = ⟨[], [], S, logs⟩) ∨
    (∃ text logs,
      process_event df ev now S =
        ⟨[text], [dedupKeyOf (extract_event_fields ev).league (extract_event_fields ev).home
            (extract_event_fields ev).away],
          dedupKeyOf (extract_event_fields ev).league (extract_event_fields ev).home
            (extract_event_fields ev).away :: S, logs⟩ ∧
      dedupKeyOf (extract_event_fields ev).league (extract_event_fields ev).home
        (extract_event_fields ev).away ∉ S) := by
  simp only [process_event]
  split
  · exact Or.inl ⟨_, rfl⟩
  split
  · exact Or.inl ⟨_, rfl⟩
  split
  · exact Or.inl ⟨_, rfl⟩
  split
  · exact Or.inl ⟨_, rfl⟩
  split
  · exact Or.inl ⟨_, rfl⟩
  split
  · exact Or.inl ⟨_, rfl⟩
  split
  · exact Or.inl ⟨_, rfl⟩
  split
  · exact Or.inl ⟨_, rfl⟩
  split
  · exact Or.inl ⟨_, rfl⟩
  next hmem => exact Or.inr ⟨_, _, rfl, hmem⟩

end BotV2

/-- Composition of the dedup invariant (monotone set, sent keys recorded,
fresh, and without duplicates) across two sequential processing stages. -/
theorem keyInv_comp {S S1 S2 ids1 ids2 : List String}
    (h1 : (∀ x ∈ S, x ∈ S1) ∧ (∀ k ∈ ids1, k ∈ S1) ∧ (∀ k ∈ ids1, k ∉ S) ∧ ids1.Nodup)
    (h2 : (∀ x ∈ S1, x ∈ S2) ∧ (∀ k ∈ ids2, k ∈ S2) ∧ (∀ k ∈ ids2, k ∉ S1) ∧ ids2.Nodup) :
    (∀ x ∈ S, x ∈ S2) ∧ (∀ k ∈ ids1 ++ ids2, k ∈ S2) ∧
    (∀ k ∈ ids1 ++ ids2, k ∉ S) ∧ (ids1 ++ ids2).Nodup := by
  obtain ⟨a1, b1, c1, d1⟩ := h1
  obtain ⟨a2, b2, c2, d2⟩ := h2
  refine ⟨fun x hx => a2 x (a1 x hx), ?_, ?_, ?_⟩
  · intro k hk
    rcases List.mem_append.mp hk with h | h
    · exact a2 k (b1 k h)
    · exact b2 k h
  · intro k hk
    rcases List.mem_append.mp hk with h | h
    · exact c1 k h
    · exact fun hS => c2 k h (a1 k hS)
  · rw [List.nodup_append]
    exact ⟨d1, d2, fun a ha hb => c2 a hb (b1 a ha)⟩

namespace BotV2

open FootyBot

theorem process_event_inv (df : DataFrame) (ev : Event) (now : Int) (S : List String) :
    (∀ x ∈ S, x ∈ (process_event df ev now S).notified) ∧
    (∀ k ∈ (process_event df ev now S).sentKeys, k ∈ (process_event df ev now S).notified) ∧
    (∀ k ∈ (process_event df ev now S).sentKeys, k ∉ S) ∧
    (process_event df ev now S).sentKeys.Nodup := by
  rcases process_event_cases df ev now S with ⟨logs, he⟩ | ⟨text, logs, he, hfresh⟩
  · rw [he]
    exact ⟨fun x hx => hx, by simp, by simp, List.nodup_nil⟩
  · rw [he]
    refine ⟨fun x hx => List.mem_cons_of_mem _ hx, ?_, ?_, by simp⟩
    · intro k hk
      simp only [List.mem_singleton] at hk
      exact hk ▸ List.mem_cons_self _ _
    · intro k hk
      simp only [List.mem_singleton] at hk
      exact hk ▸ hfresh

theorem process_once_inv (df : DataFrame) : ∀ (evs : List Event) (now : Int) (S : List String),
    (∀ x ∈ S, x ∈ (process_once df evs now S).notified) ∧
    (∀ k ∈ (process_once df evs now S).sentKeys, k ∈ (process_once df evs now S).notified) ∧
    (∀ k ∈ (process_once df evs now S).sentKeys, k ∉ S) ∧
    (process_once df evs now S).sentKeys.Nodup := by
  intro evs
  induction evs with
  | nil =>
    intro now S
    exact ⟨fun x hx => hx, by simp [process_once], by simp [process_once],
      by simp [process_once]⟩
  | cons e rest ih =>
    intro now S
    have h1 := process_event_inv df e now S
    have h2 := ih now (process_event df e now S).notified
    have hcomp := keyInv_comp h1 h2
    simpa [process_once] using hcomp

theorem run_cycles_inv_v2 : ∀ (cycles : List (DataFrame × List Event × Int)) (S : List String),
    (∀ x ∈ S, x ∈ (run_cycles cycles S).notified) ∧
    (∀ k ∈ (run_cycles cycles S).sentKeys, k ∈ (run_cycles cycles S).notified) ∧
    (∀ k ∈ (run_cycles cycles S).sentKeys, k ∉ S) ∧
    (run_cycles cycles S).sentKeys.Nodup := by
  intro cycles
  induction cycles with
  | nil =>
    intro S
    exact ⟨fun x hx => hx, by simp [run_cycles], by simp [run_cycles], by simp [run_cycles]⟩
  | cons cyc rest ih =>
    intro S
    obtain ⟨df, evs, now⟩ := cyc
    have h1 := process_once_inv df evs now S
    have h2 := ih (process_once df evs now S).notified
    have hcomp := keyInv_comp h1 h2
    simpa [run_cycles] using hcomp

end BotV2

namespace BotV1

open FootyBot

theorem innerLoop_inv (now : Int) (sendOk : String → Bool) (c : CsvRow) :
    ∀ (lvs : List LiveMatch) (S : List String),
    (∀ x ∈ S, x ∈ (innerLoop now sendOk c lvs S).notified) ∧
    (∀ k ∈ (innerLoop now sendOk c lvs S).sentIds, k ∈ (innerLoop now sendOk c lvs S).notified) ∧
    (∀ k ∈ (innerLoop now sendOk c lvs S).sentIds, k ∉ S) ∧
    (innerLoop now sendOk c lvs S).sentIds.Nodup := by
  intro lvs
  induction lvs with
  | nil =>
    intro S
    exact ⟨fun x hx => hx, by simp [innerLoop], by simp [innerLoop], by simp [innerLoop]⟩
  | cons lv rest ih =>
    intro S
    simp only [innerLoop]
    split
    · exact ih S
    split
    · exact ih S
    next hmem =>
      split
      · exact ih S
      next st hst =>
        split
        case isTrue =>
          split
          case isTrue =>
            obtain ⟨a, b, cc, d⟩ := ih (lv.id :: S)
            refine ⟨fun x hx => a x (List.mem_cons_of_mem _ hx), ?_, ?_, ?_⟩
            · intro k hk
              rcases List.mem_cons.mp hk with h | h
              · exact h ▸ a lv.id (List.mem_cons_self _ _)
              · exact b k h
            · intro k hk
              rcases List.mem_cons.mp hk with h | h
              · exact h ▸ hmem
              · exact fun hS => cc k h (List.mem_cons_of_mem _ hS)
            · refine List.nodup_cons.mpr ⟨?_, d⟩
              intro hin
              exact cc lv.id hin (List.mem_cons_self _ _)
          case isFalse => exact ih S
        case isFalse => exact ih S

theorem outerLoop_inv (now : Int) (sendOk : String → Bool) :
    ∀ (cs : List CsvRow) (lives : List LiveMatch) (S : List String),
    (∀ x ∈ S, x ∈ (outerLoop now sendOk cs lives S).notified) ∧
    (∀ k ∈ (outerLoop now sendOk cs lives S).sentIds,
      k ∈ (outerLoop now sendOk cs lives S).notified) ∧
    (∀ k ∈ (outerLoop now sendOk cs lives S).sentIds, k ∉ S) ∧
    (outerLoop now sendOk cs lives S).sentIds.Nodup := by
  intro cs
  induction cs with
  | nil =>
    intro lives S
    exact ⟨fun x hx => hx, by simp [outerLoop], by simp [outerLoop], by simp [outerLoop]⟩
  | cons c cs ih =>
    intro lives S
    have h1 := innerLoop_inv now sendOk c lives S
    have h2 := ih lives (innerLoop now sendOk c lives S).notified
    have hcomp := keyInv_comp h1 h2
    simpa [outerLoop] using hcomp

theorem check_matches_inv (now : Int) (cs : List CsvRow) (lives : List LiveMatch)
    (sendOk : String → Bool) (S : List String) :
    (∀ x ∈ S, x ∈ (check_matches now cs lives sendOk S).notified) ∧
    (∀ k ∈ (check_matches now cs lives sendOk S).sentIds,
      k ∈ (check_matches now cs lives sendOk S).notified) ∧
    (∀ k ∈ (check_matches now cs lives sendOk S).sentIds, k ∉ S) ∧
    (check_matches now cs lives sendOk S).sentIds.Nodup := by
  simp only [check_matches]
  split
  · exact ⟨fun x hx => hx, by simp, by simp, List.nodup_nil⟩
  split
  · exact ⟨fun x hx => hx, by simp, by simp, List.nodup_nil⟩
  split
  · exact ⟨fun x hx => hx, by simp, by simp, List.nodup_nil⟩
  exact outerLoop_inv now sendOk _ lives S

theorem run_cycles_inv_v1 (sendOk : String → Bool) :
    ∀ (cycles : List (Int × List CsvRow × List LiveMatch)) (S : List String),
    (∀ x ∈ S, x ∈ (run_cycles sendOk cycles S).notified) ∧
    (∀ k ∈ (run_cycles sendOk cycles S).sentIds, k ∈ (run_cycles sendOk cycles S).notified) ∧
    (∀ k ∈ (run_cycles sendOk cycles S).sentIds, k ∉ S) ∧
    (run_cycles sendOk cycles S).sentIds.Nodup := by
  intro cycles
  induction cycles with
  | nil =>
    intro S
    exact ⟨fun x hx => hx, by simp [run_cycles], by simp [run_cycles], by simp [run_cycles]⟩
  | cons cyc rest ih =>
    intro S
    obtain ⟨now, cs, ls⟩ := cyc
    have h1 := check_matches_inv now cs ls sendOk S
    have h2 := ih (check_matches now cs ls sendOk S).notified
    have hcomp := keyInv_comp h1 h2
    simpa [run_cycles] using hcomp

end BotV1

namespace BotV2

open FootyBot

theorem lookup_err (df : DataFrame) (h1 : df.rows ≠ []) (h2 : df.hasLeagueCol = true)
    (league home away : String) (hl : league ≠ "") :
    lookup_match_avg df league home away = .error dfAmbiguousMsg := by
  have hne : df.rows.isEmpty = false := by
    cases hr : df.rows with
    | nil => exact absurd hr h1
    | cons a t => rfl
  have hl2 : (league == "") = false := by
    cases hq : league == "" with
    | false => rfl
    | true => exact absurd (by simpa using hq) hl
  unfold lookup_match_avg
  rw [hne, h2, hl2]
  rfl

theorem process_event_league_err (df : DataFrame) (ev : Event) (now : Int) (S : List String)
    (h1 : df.rows ≠ []) (h2 : df.hasLeagueCol = true) :
    (process_event df ev now S).sends = [] ∧ (process_event df ev now S).notified = S := by
  simp only [process_event]
  split
  · exact ⟨rfl, rfl⟩
  next hguard =>
    split
    · exact ⟨rfl, rfl⟩
    split
    · exact ⟨rfl, rfl⟩
    split
    · exact ⟨rfl, rfl⟩
    next minute hmin =>
      split
      · exact ⟨rfl, rfl⟩
      have hleague : (extract_event_fields ev).league ≠ "" := by
        simp only [Bool.or_eq_true, beq_iff_eq] at hguard
        intro h0
        exact hguard (Or.inr h0)
      rw [lookup_err df h1 h2 _ _ _ hleague]
      exact ⟨rfl, rfl⟩

theorem process_once_league_err (df : DataFrame) (h1 : df.rows ≠ [])
    (h2 : df.hasLeagueCol = true) :
    ∀ (evs : List Event) (now : Int) (S : List String),
    (process_once df evs now S).sends = [] ∧ (process_once df evs now S).notified = S := by
  intro evs
  induction evs with
  | nil => intro now S; exact ⟨rfl, rfl⟩
  | cons e rest ih =>
    intro now S
    obtain ⟨hs, hn⟩ := process_event_league_err df e now S h1 h2
    obtain ⟨hs2, hn2⟩ := ih now (process_event df e now S).notified
    constructor
    · show (process_event df e now S).sends ++
        (process_once df rest now (process_event df e now S).notified).sends = []
      rw [hs, hs2]
      rfl
    · show (process_once df rest now (process_event df e now S).notified).notified = S
      rw [hn] at hn2
      rw [hn] at hs2 ⊢
      exact hn2

end BotV2

namespace FootyBot

theorem Deci.lt_le_false {a b : Deci} (h : Deci.lt a b = true) : Deci.le b a = false := by
  simp only [Deci.lt, decide_eq_true_eq] at h
  simp only [Deci.le, decide_eq_false_iff_not]
  omega

end FootyBot

/-- C1: end-to-end scenario A (schedule row Premier League, Chelsea vs Arsenal,
average goals 3.1; live event Chelsea FC vs Arsenal FC, 0-0, minute 52;
threshold 2.5, window starting at 50).  In `Bot.py`'s `check_matches` the
cycle emits exactly one notification containing "Chelsea", "Arsenal" and
"52"; in `src/bot.py`'s `process_once` the same scenario emits none, because
`lookup_match_avg` raises on its DataFrame `or` and the per-event handler
swallows the event. -/
theorem C1_scenario_A :
    (let row : BotV1.CsvRow := ⟨"Chelsea", "Arsenal", "3.1"⟩
     let lv : BotV1.LiveMatch :=
       ⟨"ev1", "Chelsea FC", "Arsenal FC", some "Premier League", "0-0", "20251012120000"⟩
     let o := BotV1.check_matches (FootyBot.epochOfYmdHms 2025 10 12 12 52 0)
       [row] [lv] (fun _ => true) []
     o.attempts.length = 1 ∧
     o.attempts.all (fun p => p.2 && FootyBot.isSub "Chelsea" p.1 &&
       FootyBot.isSub "Arsenal" p.1 && FootyBot.isSub "52" p.1) = true) ∧
    (let df : BotV2.DataFrame :=
       ⟨true, [⟨"Premier League", "Chelsea", "Arsenal", some ⟨31, 1⟩, none, none⟩]⟩
     let ev : BotV2.Event :=
       [("id", .s "ev1"), ("home", .s "Chelsea FC"), ("away", .s "Arsenal FC"),
        ("league_name", .s "Premier League"), ("minute", .i 52)]
     (BotV2.process_once df [ev] (FootyBot.epochOfYmdHms 2025 10 12 12 52 0) []).sends =
       [] ∧
     (BotV2.process_once df [ev] (FootyBot.epochOfYmdHms 2025 10 12 12 52 0)
       []).notified = []) := by
  exact ⟨⟨by decide, by decide⟩, by decide, by decide⟩

/-- C2 counterexample: an empty DataFrame that has a `league` column makes
`lookup_match_avg` return `(None, None, None)` instead of raising, because
the `df.empty` early return precedes the faulty league filter.  This refutes
the claim as stated for every DataFrame with a league column. -/
theorem C2_counterexample :
    BotV2.lookup_match_avg ⟨true, []⟩ "Premier League" "Chelsea" "Arsenal" =
      .ok (none, none, none) ∧
    BotV2.isErr (BotV2.lookup_match_avg ⟨true, []⟩ "Premier League" "Chelsea" "Arsenal") =
      false :=
  ⟨rfl, rfl⟩

/-- C2 amended: for every NON-EMPTY schedule DataFrame with a `league` column
and every nonempty league string, `lookup_match_avg` raises (the league
filter applies `or` to a DataFrame); consequently in this variant
`process_once` never sends a notification and never records a key, whatever
the live events. -/
theorem C2_lookup_raises (df : BotV2.DataFrame) (h1 : df.rows ≠ [])
    (h2 : df.hasLeagueCol = true) :
    (∀ league home away : String, league ≠ "" →
      BotV2.isErr (BotV2.lookup_match_avg df league home away) = true) ∧
    (∀ (evs : List BotV2.Event) (now : Int) (S : List String),
      (BotV2.process_once df evs now S).sends = [] ∧
      (BotV2.process_once df evs now S).notified = S) := by
  constructor
  · intro league home away hl
    rw [BotV2.lookup_err df h1 h2 league home away hl]
    rfl
  · exact BotV2.process_once_league_err df h1 h2

theorem C2_witness :
    BotV2.isErr (BotV2.lookup_match_avg
      ⟨true, [⟨"Premier League", "Chelsea", "Arsenal", some ⟨31, 1⟩, none, none⟩]⟩
      "Premier League" "Chelsea" "Arsenal") = true :=
  (C2_lookup_raises _ (by decide) rfl).1 "Premier League" "Chelsea" "Arsenal" (by decide)

/-- C3 counterexample: in `src/bot.py` the dedup key is added to
`already_notified` before `send_telegram` is called and independently of its
outcome (`send_telegram` returns nothing and swallows exceptions), so a
fixture whose send fails (nothing delivered) is nevertheless marked as
notified. -/
theorem C3_counterexample :
    (let df : BotV2.DataFrame :=
       ⟨false, [⟨"", "Chelsea FC", "Arsenal FC", some ⟨31, 1⟩, none, none⟩]⟩
     let ev : BotV2.Event :=
       [("home", .s "Chelsea FC"), ("away", .s "Arsenal FC"),
        ("league_name", .s "Premier League"), ("minute", .i 52)]
     let o := BotV2.process_event df ev 0 []
     BotV2.delivered (fun _ => false) o = [] ∧ o.sends.length = 1 ∧
     o.notified = [BotV2.dedupKeyOf "Premier League" "Chelsea FC" "Arsenal FC"]) := by
  exact ⟨by decide, by decide, by decide⟩

/-- C3 amended: in `Bot.py`'s `check_matches` a fixture that passes every
guard but whose Telegram send fails is not recorded into `notified_matches`;
the attempt is made (and reported failed), nothing is marked, and re-running
the same evaluation produces the identical outcome, so the fixture is retried
while the guards still hold.  (In the `src/bot.py` variant the key is instead
recorded before the send; see the counterexample.) -/
theorem C3_amended (now st : Int) (c : BotV1.CsvRow) (lv : BotV1.LiveMatch)
    (sendOk : String → Bool) (S : List String) (v : FootyBot.Deci)
    (hv : FootyBot.pyFloat? c.averageGoals = some v)
    (havg : FootyBot.Deci.le BotV1.AVG_GOALS_THRESHOLD v = true)
    (hmatch : BotV1.match_teams c lv = true)
    (hid : lv.id ∉ S)
    (hts : BotV1.parse_timestamp lv.TU = some st)
    (helapsed : BotV1.CHECK_TIME_MINUTES ≤ BotV1.get_elapsed_minutes now st)
    (hss : lv.SS = "0-0")
    (hfail : sendOk (BotV1.buildMessage lv c (BotV1.get_elapsed_minutes now st)) = false) :
    (BotV1.check_matches now [c] [lv] sendOk S).notified = S ∧
    (BotV1.check_matches now [c] [lv] sendOk S).sentIds = [] ∧
    (BotV1.check_matches now [c] [lv] sendOk S).attempts =
      [(BotV1.buildMessage lv c (BotV1.get_elapsed_minutes now st), false)] ∧
    BotV1.check_matches now [c] [lv] sendOk
        (BotV1.check_matches now [c] [lv] sendOk S).notified =
      BotV1.check_matches now [c] [lv] sendOk S := by
  have hfilter : BotV1.filter_matches_by_avg [c] = [c] := by
    simp [BotV1.filter_matches_by_avg, hv, havg]
  have hinner : BotV1.innerLoop now sendOk c [lv] S =
      ⟨[(BotV1.buildMessage lv c (BotV1.get_elapsed_minutes now st), false)], [], S⟩ := by
    simp only [BotV1.innerLoop, hmatch, Bool.not_true, Bool.false_eq_true, if_false, hts]
    rw [if_neg hid]
    rw [hss]
    simp [helapsed, hfail]
  have hcm : BotV1.check_matches now [c] [lv] sendOk S =
      ⟨[(BotV1.buildMessage lv c (BotV1.get_elapsed_minutes now st), false)], [], S⟩ := by
    simp only [BotV1.check_matches, hfilter]
    simp [BotV1.outerLoop, hinner]
  refine ⟨by rw [hcm], by rw [hcm], by rw [hcm], ?_⟩
  have hnot : (BotV1.check_matches now [c] [lv] sendOk S).notified = S := by rw [hcm]
  rw [hnot, hcm]

theorem C3_witness :
    (BotV1.check_matches (FootyBot.epochOfYmdHms 2025 10 12 12 52 0)
      [⟨"Chelsea", "Arsenal", "3.1"⟩]
      [⟨"ev1", "Chelsea FC", "Arsenal FC", some "Premier League", "0-0", "20251012120000"⟩]
      (fun _ => false) []).notified = [] ∧
    (BotV1.check_matches (FootyBot.epochOfYmdHms 2025 10 12 12 52 0)
      [⟨"Chelsea", "Arsenal", "3.1"⟩]
      [⟨"ev1", "Chelsea FC", "Arsenal FC", some "Premier League", "0-0", "20251012120000"⟩]
      (fun _ => false) []).sentIds = [] := by
  have h := C3_amended (FootyBot.epochOfYmdHms 2025 10 12 12 52 0)
    (FootyBot.epochOfYmdHms 2025 10 12 12 0 0)
    ⟨"Chelsea", "Arsenal", "3.1"⟩
    ⟨"ev1", "Chelsea FC", "Arsenal FC", some "Premier League", "0-0", "20251012120000"⟩
    (fun _ => false) [] ⟨31, 1⟩ (by decide) (by decide) (by decide) (by decide)
    (by decide) (by decide) rfl rfl
  exact ⟨h.1, h.2.1⟩

/-- C6 counterexample: `Bot.py`'s `get_elapsed_minutes` with a kickoff 600
seconds in the future returns the negative number -10 rather than none. -/
theorem C6_counterexample :
    BotV1.get_elapsed_minutes 1000000 1000600 = -10 ∧ (-10 : Int) < 0 := by
  exact ⟨by decide, by decide⟩

/-- C6 amended: in `src/bot.py`, for an event without a usable explicit
minute field and with a nonzero kickoff epoch, elapsed-minute resolution
returns none whenever the kickoff is not strictly past, and
`floor((now - kickoff) / 60) ≥ 0` (UTC epochs) whenever it is strictly past.
(`Bot.py`'s variant instead returns the truncated signed difference, negative
for future kickoffs — see the counterexample; and an explicit minute field
takes precedence over the kickoff comparison.) -/
theorem C6_amended (ev : BotV2.Event) (ko now : Int) (hko : ko ≠ 0)
    (hmin : BotV2.minuteFieldOf ev = none) :
    (now ≤ ko → BotV2.get_elapsed_minutes ev (some ko) now = none) ∧
    (ko < now →
      BotV2.get_elapsed_minutes ev (some ko) now = some (Int.fdiv (now - ko) 60) ∧
      0 ≤ Int.fdiv (now - ko) 60) := by
  have hkob : (ko == 0) = false := by
    cases hq : ko == 0 with
    | false => rfl
    | true => exact absurd (by simpa using hq) hko
  constructor
  · intro h
    simp only [BotV2.get_elapsed_minutes, hmin, hkob]
    rw [if_pos (by simp), if_neg (by omega)]
  · intro h
    constructor
    · simp only [BotV2.get_elapsed_minutes, hmin, hkob]
      rw [if_pos (by simp), if_pos h]
    · exact Int.fdiv_nonneg (by omega) (by norm_num)

theorem C6_witness :
    BotV2.get_elapsed_minutes [] (some 100) 4000 = some (Int.fdiv (4000 - 100) 60) ∧
    0 ≤ Int.fdiv (4000 - 100) 60 :=
  (C6_amended [] 100 4000 (by decide) rfl).2 (by decide)

/-- C8 counterexample: mixed-direction containment does not match.  With
schedule "Chelsea"/"Arsenal FC" and live "Chelsea FC"/"Arsenal", the
schedule home is contained in the live home and the live away is contained in
the schedule away (both pairs are substring-related), yet `match_teams`
returns false. -/
theorem C8_counterexample :
    BotV1.match_teams ⟨"Chelsea", "Arsenal FC", "3.1"⟩
      ⟨"9", "Chelsea FC", "Arsenal", some "PL", "0-0", ""⟩ = false ∧
    FootyBot.isSub (BotV1.lowstrip "Chelsea") (BotV1.lowstrip "Chelsea FC") = true ∧
    FootyBot.isSub (BotV1.lowstrip "Arsenal") (BotV1.lowstrip "Arsenal FC") = true := by
  exact ⟨by decide, by decide, by decide⟩

/-- C8 amended: the containment step of `match_teams` declares a match
whenever both containments hold in the SAME direction: either both normalized
schedule names are substrings of the corresponding live names, or both live
names are substrings of the corresponding schedule names.  The mixed case
does not match (see the counterexample). -/
theorem C8_amended (c : BotV1.CsvRow) (lv : BotV1.LiveMatch)
    (h : (FootyBot.isSub (BotV1.lowstrip c.homeTeam) (BotV1.lowstrip lv.home) = true ∧
          FootyBot.isSub (BotV1.lowstrip c.awayTeam) (BotV1.lowstrip lv.away) = true) ∨
         (FootyBot.isSub (BotV1.lowstrip lv.home) (BotV1.lowstrip c.homeTeam) = true ∧
          FootyBot.isSub (BotV1.lowstrip lv.away) (BotV1.lowstrip c.awayTeam) = true)) :
    BotV1.match_teams c lv = true := by
  unfold BotV1.match_teams
  rcases h with ⟨ha, hb⟩ | ⟨ha, hb⟩ <;> simp [ha, hb]

theorem C8_witness :
    BotV1.match_teams ⟨"Chelsea", "Arsenal", "3.1"⟩
      ⟨"7", "Chelsea FC", "Arsenal FC", some "PL", "0-0", ""⟩ = true :=
  C8_amended _ _ (Or.inl ⟨by decide, by decide⟩)

/-- C4: duplicate suppression.  Across any number of cycles (with
`notified_matches` / `already_notified` threaded through), the successful
notifications of `Bot.py` have pairwise-distinct event ids, none of which was
already in the set, and the signals of `src/bot.py` have pairwise-distinct
dedup keys, none already in the set: at most one notification is ever sent
per NotificationKey, and a key already recorded is suppressed. -/
theorem C4_dedup :
    (∀ (cycles : List (Int × List BotV1.CsvRow × List BotV1.LiveMatch))
       (sendOk : String → Bool) (S : List String),
      (BotV1.run_cycles sendOk cycles S).sentIds.Nodup ∧
      ∀ k ∈ (BotV1.run_cycles sendOk cycles S).sentIds, k ∉ S) ∧
    (∀ (cycles : List (BotV2.DataFrame × List BotV2.Event × Int)) (S : List String),
      (BotV2.run_cycles cycles S).sentKeys.Nodup ∧
      ∀ k ∈ (BotV2.run_cycles cycles S).sentKeys, k ∉ S) := by
  constructor
  · intro cycles sendOk S
    obtain ⟨_, _, hc, hd⟩ := BotV1.run_cycles_inv_v1 sendOk cycles S
    exact ⟨hd, hc⟩
  · intro cycles S
    obtain ⟨_, _, hc, hd⟩ := BotV2.run_cycles_inv_v2 cycles S
    exact ⟨hd, hc⟩

theorem C4_witness :
    (BotV1.run_cycles (fun _ => true)
      [(FootyBot.epochOfYmdHms 2025 10 12 12 52 0, [⟨"Chelsea", "Arsenal", "3.1"⟩],
        [⟨"ev1", "Chelsea FC", "Arsenal FC", some "Premier League", "0-0",
          "20251012120000"⟩])]
      ["x"]).sentIds.Nodup ∧
    "ev1" ∉ ["x"] := by
  have h := C4_dedup.1
    [(FootyBot.epochOfYmdHms 2025 10 12 12 52 0, [⟨"Chelsea", "Arsenal", "3.1"⟩],
      [⟨"ev1", "Chelsea FC", "Arsenal FC", some "Premier League", "0-0",
        "20251012120000"⟩])]
    (fun _ => true) ["x"]
  exact ⟨h.1, h.2 "ev1" (by decide)⟩

/-- C5 counterexample: in `src/bot.py` a below-threshold ScheduleRow is not
rejected before pairing; `lookup_match_avg` pairs it first.  With two rows for
the same fixture (avg 2.0 before avg 3.1), the lookup returns the
below-threshold one, the event is rejected by the average-goals guard with
the row's value in the log, and no signal is sent — whereas with the
below-threshold row removed the same event produces a signal.  Had the
average-goals guard run before pairing, the row could not have influenced the
outcome. -/
theorem C5_counterexample :
    (let rowLow : BotV2.Row := ⟨"", "Chelsea", "Arsenal", some ⟨20, 1⟩, none, none⟩
     let rowHigh : BotV2.Row := ⟨"", "Chelsea", "Arsenal", some ⟨31, 1⟩, none, none⟩
     let ev : BotV2.Event := [("home", .s "Chelsea"), ("away", .s "Arsenal"),
       ("league_name", .s "Premier League"), ("minute", .i 52)]
     (BotV2.process_event ⟨false, [rowLow, rowHigh]⟩ ev 0 []).sends = [] ∧
     (BotV2.process_event ⟨false, [rowLow, rowHigh]⟩ ev 0 []).logs =
       ["AVG 2.00 < soglia 2.50 per Chelsea-Arsenal"] ∧
     (BotV2.process_event ⟨false, [rowHigh]⟩ ev 0 []).sends ≠ []) := by
  exact ⟨by decide, by decide, by decide⟩

/-- C5 amended: in `Bot.py` the average-goals filter runs before the pairing
loop, so a ScheduleRow whose `Average Goals` value parses below the 2.50
threshold is removed before any live event is examined: deleting such a row
from the CSV leaves the whole cycle's outcome unchanged.  (In `src/bot.py`
the guard instead runs after the lookup — see the counterexample.) -/
theorem C5_amended (now : Int) (sendOk : String → Bool) (r1 r2 : List BotV1.CsvRow)
    (c : BotV1.CsvRow) (lives : List BotV1.LiveMatch) (S : List String)
    (v : FootyBot.Deci)
    (hv : FootyBot.pyFloat? c.averageGoals = some v)
    (hlt : FootyBot.Deci.lt v BotV1.AVG_GOALS_THRESHOLD = true) :
    BotV1.check_matches now (r1 ++ c :: r2) lives sendOk S =
    BotV1.check_matches now (r1 ++ r2) lives sendOk S := by
  have hpred : (fun m => match FootyBot.pyFloat? m.averageGoals with
      | some w => FootyBot.Deci.le BotV1.AVG_GOALS_THRESHOLD w
      | none => false) c = false := by
    simp only [hv]
    exact FootyBot.Deci.lt_le_false hlt
  have hfc : BotV1.filter_matches_by_avg (r1 ++ c :: r2) =
      BotV1.filter_matches_by_avg (r1 ++ r2) := by
    simp only [BotV1.filter_matches_by_avg, List.filter_append, List.filter_cons, hpred]
    simp
  have h1 : (r1 ++ c :: r2).isEmpty = false := by
    cases r1 <;> rfl
  simp only [BotV1.check_matches, h1, hfc, Bool.false_eq_true, if_false]
  by_cases h2 : (r1 ++ r2).isEmpty = true
  · have h3 : r1 ++ r2 = [] := by
      cases hx : r1 ++ r2 with
      | nil => rfl
      | cons a t => rw [hx] at h2; cases h2
    rw [if_pos h2, h3]
    simp [BotV1.filter_matches_by_avg]
  · rw [if_neg h2]

theorem C5_witness :
    BotV1.check_matches (FootyBot.epochOfYmdHms 2025 10 12 12 52 0)
      ([] ++ ⟨"Fulham", "Brentford", "2.0"⟩ :: [⟨"Chelsea", "Arsenal", "3.1"⟩])
      [⟨"ev1", "Chelsea FC", "Arsenal FC", some "Premier League", "0-0",
        "20251012120000"⟩] (fun _ => true) [] =
    BotV1.check_matches (FootyBot.epochOfYmdHms 2025 10 12 12 52 0)
      ([] ++ [⟨"Chelsea", "Arsenal", "3.1"⟩])
      [⟨"ev1", "Chelsea FC", "Arsenal FC", some "Premier League", "0-0",
        "20251012120000"⟩] (fun _ => true) [] :=
  C5_amended (FootyBot.epochOfYmdHms 2025 10 12 12 52 0) (fun _ => true) []
    [⟨"Chelsea", "Arsenal", "3.1"⟩] ⟨"Fulham", "Brentford", "2.0"⟩
    [⟨"ev1", "Chelsea FC", "Arsenal FC", some "Premier League", "0-0",
      "20251012120000"⟩] [] ⟨20, 1⟩ (by decide) (by decide)

/-- C7 counterexample: `Bot.py`'s inner loop has no break, so one schedule row
paired with two live events that both satisfy the guards produces two
notifications in the same cycle — the row is not paired with at most one
live event. -/
theorem C7_counterexample :
    (let row : BotV1.CsvRow := ⟨"Chelsea", "Arsenal", "3.1"⟩
     let e1 : BotV1.LiveMatch :=
       ⟨"1", "Chelsea FC", "Arsenal FC", some "PL", "0-0", "20251012120000"⟩
     let e2 : BotV1.LiveMatch :=
       ⟨"2", "Chelsea", "Arsenal", some "PL", "0-0", "20251012120000"⟩
     let o := BotV1.check_matches (FootyBot.epochOfYmdHms 2025 10 12 12 52 0)
       [row] [e1, e2] (fun _ => true) []
     o.sentIds = ["1", "2"] ∧ o.attempts.length = 2) := by
  exact ⟨by decide, by decide⟩


/-- One step of `Bot.py`'s inner loop for an event that passes every guard and
whose send succeeds: the message is attempted, the id recorded, and the loop
continues with the rest of the live events. -/
theorem BotV1.innerLoop_send_step (now st : Int) (c : BotV1.CsvRow) (lv : BotV1.LiveMatch)
    (rest : List BotV1.LiveMatch) (S : List String)
    (hm : BotV1.match_teams c lv = true) (hid : lv.id ∉ S)
    (hts : BotV1.parse_timestamp lv.TU = some st)
    (he : BotV1.CHECK_TIME_MINUTES ≤ BotV1.get_elapsed_minutes now st)
    (hss : lv.SS = "0-0") :
    BotV1.innerLoop now (fun _ => true) c (lv :: rest) S =
      ⟨(BotV1.buildMessage lv c (BotV1.get_elapsed_minutes now st), true) ::
         (BotV1.innerLoop now (fun _ => true) c rest (lv.id :: S)).attempts,
       lv.id :: (BotV1.innerLoop now (fun _ => true) c rest (lv.id :: S)).sentIds,
       (BotV1.innerLoop now (fun _ => true) c rest (lv.id :: S)).notified⟩ := by
  simp only [BotV1.innerLoop, hm, Bool.not_true, Bool.false_eq_true, if_false, hts]
  rw [if_neg hid, hss]
  simp [he]

/-- C7 amended: every live event matching a schedule row is evaluated in
iteration order, and each matching event that passes the guards with a fresh,
distinct event id produces its own notification: a later matching event is
not discarded but acted upon as well (suppression is per event id, not per
row). -/
theorem C7_amended (now st1 st2 : Int) (c : BotV1.CsvRow) (e1 e2 : BotV1.LiveMatch)
    (S : List String)
    (h1 : BotV1.match_teams c e1 = true) (h2 : BotV1.match_teams c e2 = true)
    (hid1 : e1.id ∉ S) (hid2 : e2.id ∉ S) (hne : e1.id ≠ e2.id)
    (ht1 : BotV1.parse_timestamp e1.TU = some st1)
    (ht2 : BotV1.parse_timestamp e2.TU = some st2)
    (he1 : BotV1.CHECK_TIME_MINUTES ≤ BotV1.get_elapsed_minutes now st1)
    (he2 : BotV1.CHECK_TIME_MINUTES ≤ BotV1.get_elapsed_minutes now st2)
    (hss1 : e1.SS = "0-0") (hss2 : e2.SS = "0-0") :
    (BotV1.innerLoop now (fun _ => true) c [e1, e2] S).sentIds = [e1.id, e2.id] := by
  have hid2b : e2.id ∉ e1.id :: S := by
    intro hmem
    rcases List.mem_cons.mp hmem with h | h
    · exact hne h.symm
    · exact hid2 h
  rw [BotV1.innerLoop_send_step now st1 c e1 [e2] S h1 hid1 ht1 he1 hss1]
  show e1.id :: (BotV1.innerLoop now (fun _ => true) c [e2] (e1.id :: S)).sentIds =
    [e1.id, e2.id]
  rw [BotV1.innerLoop_send_step now st2 c e2 [] (e1.id :: S) h2 hid2b ht2 he2 hss2]
  rfl

theorem C7_witness :
    (BotV1.innerLoop (FootyBot.epochOfYmdHms 2025 10 12 12 52 0) (fun _ => true)
      ⟨"Chelsea", "Arsenal", "3.1"⟩
      [⟨"1", "Chelsea FC", "Arsenal FC", some "PL", "0-0", "20251012120000"⟩,
       ⟨"2", "Chelsea", "Arsenal", some "PL", "0-0", "20251012120000"⟩]
      []).sentIds = ["1", "2"] :=
  C7_amended (FootyBot.epochOfYmdHms 2025 10 12 12 52 0)
    (FootyBot.epochOfYmdHms 2025 10 12 12 0 0) (FootyBot.epochOfYmdHms 2025 10 12 12 0 0)
    ⟨"Chelsea", "Arsenal", "3.1"⟩
    ⟨"1", "Chelsea FC", "Arsenal FC", some "PL", "0-0", "20251012120000"⟩
    ⟨"2", "Chelsea", "Arsenal", some "PL", "0-0", "20251012120000"⟩ []
    (by decide) (by decide) (by decide) (by decide) (by decide) (by decide) (by decide)
    (by decide) (by decide) rfl rfl

/-- C9 counterexample: `normalize` is not idempotent.  For `"a_w"` the
underscore is a regex word character, so the `\b`-anchored stopword removal
does not see the `w` as a standalone token; the punctuation pass then turns
`_` into a space, yielding `"a w"` — and a second application now removes the
stopword `w`, yielding `"a"`. -/
theorem C9_counterexample :
    FootyBot.normalize (FootyBot.normalize "a_w") ≠ FootyBot.normalize "a_w" ∧
    FootyBot.normalize "a_w" = "a w" ∧ FootyBot.normalize "a w" = "a" := by
  exact ⟨by decide, by decide, by decide⟩

/-- C9 amended: `normalize` is idempotent on every string of ASCII characters
that contains no underscore: for such `s`,
`normalize (normalize s) = normalize s`.  (An underscore — or a non-ASCII
word character that survives NFKD — is a `\b` word character yet is replaced
by a space only after stopword removal, which is what breaks idempotence in
general; see the counterexample.) -/
theorem C9_amended (s : String) (h : ∀ c ∈ s.data, c.toNat ≤ 127 ∧ c.toNat ≠ 95) :
    FootyBot.normalize (FootyBot.normalize s) = FootyBot.normalize s := by
  show String.mk (FootyBot.normalizeL (FootyBot.normalizeL s.data)) =
    String.mk (FootyBot.normalizeL s.data)
  rw [FootyBot.normalizeL_idem fun c hc => (h c hc).2]

theorem C9_witness :
    FootyBot.normalize (FootyBot.normalize "Chelsea FC (Res.) vs Arsenal U19") =
      FootyBot.normalize "Chelsea FC (Res.) vs Arsenal U19" :=
  C9_amended "Chelsea FC (Res.) vs Arsenal U19" (by decide)

/-- C10: for a live event whose score chains select no truthy value (all
recognised score fields missing or falsy, so the `or`-chain yields the
default `0`) or whose selected values fail `int(...)` conversion, extraction
yields `home_score = away_score = 0`, and the event is not rejected by the
"both scores equal zero" guard of `process_once` — it is treated exactly like
a genuine 0-0 match. -/
theorem C10_zero_scores (ev : BotV2.Event)
    (hh : BotV2.hsRawOf ev = .i 0 ∨
      (∃ t, BotV2.hsRawOf ev = .s t ∧ FootyBot.pyInt? t = none) ∨
      (∃ fs, BotV2.hsRawOf ev = .obj fs))
    (ha : BotV2.asRawOf ev = .i 0 ∨
      (∃ t, BotV2.asRawOf ev = .s t ∧ FootyBot.pyInt? t = none) ∨
      (∃ fs, BotV2.asRawOf ev = .obj fs)) :
    (BotV2.extract_event_fields ev).homeScore = 0 ∧
    (BotV2.extract_event_fields ev).awayScore = 0 ∧
    BotV2.scoreSkip (BotV2.extract_event_fields ev) = false := by
  have hhs : BotV2.pyIntOrZero (BotV2.hsRawOf ev) = 0 := by
    rcases hh with h | ⟨t, h, hp⟩ | ⟨fs, h⟩
    · rw [h]; rfl
    · rw [h]; simp [BotV2.pyIntOrZero, hp]
    · rw [h]; rfl
  have has : BotV2.pyIntOrZero (BotV2.asRawOf ev) = 0 := by
    rcases ha with h | ⟨t, h, hp⟩ | ⟨fs, h⟩
    · rw [h]; rfl
    · rw [h]; simp [BotV2.pyIntOrZero, hp]
    · rw [h]; rfl
  have e1 : (BotV2.extract_event_fields ev).homeScore =
      BotV2.pyIntOrZero (BotV2.hsRawOf ev) := rfl
  have e2 : (BotV2.extract_event_fields ev).awayScore =
      BotV2.pyIntOrZero (BotV2.asRawOf ev) := rfl
  refine ⟨e1 ▸ hhs, e2 ▸ has, ?_⟩
  rw [BotV2.scoreSkip, e1, e2, hhs, has]
  rfl

theorem C10_witness :
    (BotV2.extract_event_fields
      [("home", .s "A"), ("away", .s "B"), ("league_name", .s "L"),
       ("homeScore", .s "abc"), ("awayScore", .s "x1")]).homeScore = 0 ∧
    (BotV2.extract_event_fields
      [("home", .s "A"), ("away", .s "B"), ("league_name", .s "L"),
       ("homeScore", .s "abc"), ("awayScore", .s "x1")]).awayScore = 0 ∧
    BotV2.scoreSkip (BotV2.extract_event_fields
      [("home", .s "A"), ("away", .s "B"), ("league_name", .s "L"),
       ("homeScore", .s "abc"), ("awayScore", .s "x1")]) = false :=
  C10_zero_scores _
    (Or.inr (Or.inl ⟨"abc", rfl, by decide⟩))
    (Or.inr (Or.inl ⟨"x1", rfl, by decide⟩))
